import Mathlib

/-!
Verification development for the `tc` flow-telemetry engine.

The Rust sources are shallowly embedded as follows:
* machine integers (`u64`, `u32`, `u16`, `u8`) become `Nat` with explicit
  reduction `% 2 ^ w` at every arithmetic step that can overflow;
* the eBPF `HashMap` maps become association lists (`List (κ × ν)`), with
  `alookup` modelling `get` and `aput` modelling `insert` (upsert);
* the packet buffer of an `XdpContext` becomes the `List Nat` of its validated
  bytes, so `ctx.data = 0` and `ctx.data_end = buf.length`;
* the RocksDB instance becomes a `List (Bytes × DBVal)` of key/value pairs,
  kept sorted in strictly ascending byte-lexicographic key order (the RocksDB
  iteration invariant), where `Bytes = List Nat` holds the key's ASCII bytes
  and `DBVal` is the deserialized form of a stored record;
* fallible Rust functions return sum types (`PtrResult`, `PacketResult`).
-/

namespace TC

/-! ### Machine arithmetic (wrapping `u64`/`u32` addition) -/

def M64 : Nat := 2 ^ 64

def M32 : Nat := 2 ^ 32

def add64 (a b : Nat) : Nat := (a + b) % M64

def add32 (a b : Nat) : Nat := (a + b) % M32

/-! ### Data model (tc-common/src/lib.rs)

Padding-only fields (`_padding`) are omitted: they carry no information.
-/

structure FlowKey where
  ip : Nat
  port : Nat
  protocol : Nat
  direction : Nat
deriving DecidableEq

structure EnhancedTrafficStats where
  inbound_packets : Nat
  inbound_bytes : Nat
  outbound_packets : Nat
  outbound_bytes : Nat
  protocol : Nat
  last_seen : Nat
  connection_count : Nat
deriving DecidableEq

structure ProtocolStats where
  tcp_flows : Nat
  udp_flows : Nat
  tcp_bytes : Nat
  udp_bytes : Nat
  tcp_packets : Nat
  udp_packets : Nat
deriving DecidableEq

structure PortStats where
  port : Nat
  protocol : Nat
  total_bytes : Nat
  total_packets : Nat
  active_connections : Nat
  last_active : Nat
deriving DecidableEq

def PROTOCOL_TCP : Nat := 6

def PROTOCOL_UDP : Nat := 17

def DIRECTION_INBOUND : Nat := 0

def DIRECTION_OUTBOUND : Nat := 1

/-- Model of `EnhancedTrafficStats::total_bytes` (wrapping `u64` addition). -/
def EnhancedTrafficStats.total_bytes (s : EnhancedTrafficStats) : Nat :=
  add64 s.inbound_bytes s.outbound_bytes

/-- Model of `EnhancedTrafficStats::total_packets`. -/
def EnhancedTrafficStats.total_packets (s : EnhancedTrafficStats) : Nat :=
  add64 s.inbound_packets s.outbound_packets

/-! ### Association lists modelling the eBPF hash maps -/

def alookup {κ ν : Type} [DecidableEq κ] (k : κ) : List (κ × ν) → Option ν
  | [] => none
  | (k', v) :: rest => if k' = k then some v else alookup k rest

def aput {κ ν : Type} [DecidableEq κ] (k : κ) (v : ν) : List (κ × ν) → List (κ × ν)
  | [] => [(k, v)]
  | (k', v') :: rest => if k' = k then (k, v) :: rest else (k', v') :: aput k v rest

theorem alookup_aput_self {κ ν : Type} [DecidableEq κ] (k : κ) (v : ν)
    (l : List (κ × ν)) : alookup k (aput k v l) = some v := by
  induction l with
  | nil => simp [alookup, aput]
  | cons e rest ih =>
    by_cases h : e.1 = k
    · simp [alookup, aput, h]
    · simp [alookup, aput, h, ih]

theorem alookup_aput_ne {κ ν : Type} [DecidableEq κ] (k k' : κ) (v : ν)
    (l : List (κ × ν)) (h : k' ≠ k) :
    alookup k (aput k' v l) = alookup k l := by
  induction l with
  | nil => simp [alookup, aput, h]
  | cons e rest ih =>
    obtain ⟨ek, ev⟩ := e
    by_cases he : ek = k'
    · subst he
      have hke : ek ≠ k := fun hh => h (hh ▸ rfl)
      simp [alookup, aput, h, hke]
    · by_cases hk : ek = k <;> simp [alookup, aput, he, hk, ih, Ne.symm h]

/-! ### eBPF map state and per-packet update functions (tc-ebpf/src/main.rs) -/

structure MapsState where
  flow_stats : List (FlowKey × EnhancedTrafficStats)
  ip_protocol_stats : List (Nat × ProtocolStats)
  port_stats : List (Nat × PortStats)
  target_ip : List Nat
deriving DecidableEq

/-- Model of `update_flow_stats` (main.rs lines 170-212), acting on the
`FLOW_STATS` map. -/
def update_flow_stats (m : List (FlowKey × EnhancedTrafficStats))
    (ip port protocol direction bytes timestamp : Nat) :
    List (FlowKey × EnhancedTrafficStats) :=
  let key : FlowKey := ⟨ip, port, protocol, direction⟩
  match alookup key m with
  | some existing =>
    let stats :=
      if direction = DIRECTION_INBOUND then
        { existing with
          inbound_packets := add64 existing.inbound_packets 1
          inbound_bytes := add64 existing.inbound_bytes bytes }
      else
        { existing with
          outbound_packets := add64 existing.outbound_packets 1
          outbound_bytes := add64 existing.outbound_bytes bytes }
    aput key
      { stats with
        last_seen := timestamp
        connection_count := add32 stats.connection_count 1 } m
  | none =>
    aput key
      { inbound_packets := if direction = DIRECTION_INBOUND then 1 else 0
        inbound_bytes := if direction = DIRECTION_INBOUND then bytes else 0
        outbound_packets := if direction ≠ DIRECTION_INBOUND then 1 else 0
        outbound_bytes := if direction ≠ DIRECTION_INBOUND then bytes else 0
        protocol := protocol
        last_seen := timestamp
        connection_count := 1 } m

/-- Model of `update_protocol_stats` (main.rs lines 214-257), acting on the
`IP_PROTOCOL_STATS` map. -/
def update_protocol_stats (m : List (Nat × ProtocolStats))
    (ip protocol bytes packets : Nat) : List (Nat × ProtocolStats) :=
  match alookup ip m with
  | some s =>
    if protocol = PROTOCOL_TCP then
      aput ip
        { s with
          tcp_flows := add32 s.tcp_flows 1
          tcp_bytes := add64 s.tcp_bytes bytes
          tcp_packets := add64 s.tcp_packets packets } m
    else if protocol = PROTOCOL_UDP then
      aput ip
        { s with
          udp_flows := add32 s.udp_flows 1
          udp_bytes := add64 s.udp_bytes bytes
          udp_packets := add64 s.udp_packets packets } m
    else m
  | none =>
    if protocol = PROTOCOL_TCP then
      aput ip ⟨1, 0, bytes, 0, packets, 0⟩ m
    else if protocol = PROTOCOL_UDP then
      aput ip ⟨0, 1, 0, bytes, 0, packets⟩ m
    else m

/-- Model of `update_port_stats` (main.rs lines 259-283), acting on the
`PORT_STATS` map. -/
def update_port_stats (m : List (Nat × PortStats))
    (port protocol bytes timestamp : Nat) : List (Nat × PortStats) :=
  match alookup port m with
  | some s =>
    aput port
      { s with
        total_bytes := add64 s.total_bytes bytes
        total_packets := add64 s.total_packets 1
        active_connections := add32 s.active_connections 1
        last_active := timestamp } m
  | none =>
    aput port ⟨port, protocol, bytes, 1, 1, timestamp⟩ m

/-! ### The XDP packet classifier (tc-ebpf/src/main.rs)

The packet buffer is the list of validated bytes, so the buffer start
(`ctx.data()`) is address `0` and the validated end (`ctx.data_end()`) is
`buf.length`. Big-endian multi-byte loads (`u16::from_be_bytes`,
`u32::from_be_bytes`, `u16::from_be`) are modelled by `readU16`/`readU32`.
-/

def EthHdrLen : Nat := 14

def Ipv4HdrLen : Nat := 20

def TcpHdrLen : Nat := 20

def UdpHdrLen : Nat := 8

def XDP_ABORTED : Nat := 0

def XDP_PASS : Nat := 2

def readU8 (buf : List Nat) (i : Nat) : Nat := buf.getD i 0

def readU16 (buf : List Nat) (i : Nat) : Nat :=
  256 * readU8 buf i + readU8 buf (i + 1)

def readU32 (buf : List Nat) (i : Nat) : Nat :=
  256 * (256 * (256 * readU8 buf i + readU8 buf (i + 1)) + readU8 buf (i + 2))
    + readU8 buf (i + 3)

/-- Result of `ptr_at`, modelling `Result<*const T, ()>`. -/
inductive PtrResult where
  | ok (addr : Nat)
  | outOfBounds
deriving DecidableEq

def PtrResult.isOk : PtrResult → Bool
  | .ok _ => true
  | .outOfBounds => false

/-- Model of `ptr_at` (main.rs lines 57-68): with `start = 0` and
`end = buf.length`, fail iff `start + offset + len > end`. -/
def ptr_at (buf : List Nat) (offset len : Nat) : PtrResult :=
  if buf.length < offset + len then .outOfBounds else .ok offset

/-- Result of `try_xdp_firewall`, modelling `Result<u32, ()>`. -/
inductive PacketResult where
  | ok (action : Nat)
  | fail
deriving DecidableEq

/-- Model of the three map updates performed for one matched side of a packet
(main.rs lines 122-136 and 150-164). -/
def apply_updates (s : MapsState) (ip port protocol direction packet_len now : Nat) :
    MapsState :=
  { s with
    flow_stats := update_flow_stats s.flow_stats ip port protocol direction packet_len now
    ip_protocol_stats := update_protocol_stats s.ip_protocol_stats ip protocol packet_len 1
    port_stats := update_port_stats s.port_stats port protocol packet_len now }

/-- Model of the two independent watch-list tests (main.rs lines 112 and 140):
inbound updates when the source address is watched, then outbound updates when
the destination address is watched. -/
def process_packet (s : MapsState)
    (source_addr dest_addr source_port dest_port protocol packet_len now : Nat) :
    MapsState :=
  let s1 :=
    if s.target_ip.contains source_addr then
      apply_updates s source_addr source_port protocol DIRECTION_INBOUND packet_len now
    else s
  if s1.target_ip.contains dest_addr then
    apply_updates s1 dest_addr dest_port protocol DIRECTION_OUTBOUND packet_len now
  else s1

/-- Model of `try_xdp_firewall` (main.rs lines 70-168). Field offsets inside
the buffer: ether type at 12 (within the 14-byte Ethernet header); IPv4 total
length at 14+2, protocol at 14+9, source address at 14+12, destination address
at 14+16; L4 source port at 34, destination port at 36. `0x0800` is
`EtherType::Ipv4`. The `protocol_type` match of the source can only see TCP or
UDP at that point, so here the parsed protocol value is passed on directly. -/
def try_xdp_firewall (buf : List Nat) (s : MapsState) (now : Nat) :
    MapsState × PacketResult :=
  match ptr_at buf 0 EthHdrLen with
  | .outOfBounds => (s, .fail)
  | .ok _ =>
    if readU16 buf 12 = 0x0800 then
      match ptr_at buf EthHdrLen Ipv4HdrLen with
      | .outOfBounds => (s, .fail)
      | .ok _ =>
        if readU8 buf 23 = PROTOCOL_TCP then
          match ptr_at buf (EthHdrLen + Ipv4HdrLen) TcpHdrLen with
          | .outOfBounds => (s, .fail)
          | .ok _ =>
            (process_packet s (readU32 buf 26) (readU32 buf 30) (readU16 buf 34)
              (readU16 buf 36) (readU8 buf 23) (readU16 buf 16) now, .ok XDP_PASS)
        else if readU8 buf 23 = PROTOCOL_UDP then
          match ptr_at buf (EthHdrLen + Ipv4HdrLen) UdpHdrLen with
          | .outOfBounds => (s, .fail)
          | .ok _ =>
            (process_packet s (readU32 buf 26) (readU32 buf 30) (readU16 buf 34)
              (readU16 buf 36) (readU8 buf 23) (readU16 buf 16) now, .ok XDP_PASS)
        else (s, .ok XDP_PASS)
    else (s, .ok XDP_PASS)

/-- Model of the `xdp_firewall` entry point (main.rs lines 49-55): any error of
`try_xdp_firewall` is caught and turned into `XDP_ABORTED`; nothing escapes to
the caller. -/
def xdp_firewall (buf : List Nat) (s : MapsState) (now : Nat) : MapsState × Nat :=
  match try_xdp_firewall buf s now with
  | (s1, .ok ret) => (s1, ret)
  | (s1, .fail) => (s1, XDP_ABORTED)

theorem ptr_at_eq_ok_iff (buf : List Nat) (off n a : Nat) :
    ptr_at buf off n = .ok a ↔ off + n ≤ buf.length ∧ a = off := by
  simp only [ptr_at]
  split <;> simp <;> omega

theorem ptr_at_eq_oob_iff (buf : List Nat) (off n : Nat) :
    ptr_at buf off n = .outOfBounds ↔ buf.length < off + n := by
  simp only [ptr_at]
  split <;> simp <;> omega

/-- Helper: `try_xdp_firewall` either fails leaving the maps untouched, or
succeeds with `XDP_PASS`. -/
theorem try_xdp_firewall_shape (buf : List Nat) (s : MapsState) (now : Nat) :
    try_xdp_firewall buf s now = (s, .fail)
      ∨ ∃ s1, try_xdp_firewall buf s now = (s1, .ok XDP_PASS) := by
  unfold try_xdp_firewall
  repeat' split
  all_goals first
    | exact Or.inl rfl
    | exact Or.inr ⟨_, rfl⟩

/-- The concrete 54-byte frame of the end-to-end scenario: Ethernet header
with ethertype 0x0800; IPv4 header with total length 100, protocol TCP,
source 10.0.0.5, destination 10.0.0.1; TCP source port 443 (1,187),
destination port 51000 (199,56). -/
def c1Buf : List Nat :=
  [0,0,0,0,0,0,0,0,0,0,0,0, 8,0,
    69,0,0,100, 0,0,0,0, 64,6,0,0, 10,0,0,5, 10,0,0,1,
    1,187, 199,56, 0,0,0,0,0,0,0,0,0,0,0,0,0,0,0,0]

/-- Initial state of the scenario: all three stats maps empty, 10.0.0.5
(= 167772165) on the watch-list. -/
def c1State0 : MapsState := ⟨[], [], [], [167772165]⟩

/-- Claim C1: injecting one TCP packet with source 10.0.0.5:443
(10.0.0.5 = 167772165), destination 10.0.0.1:51000, IP total length 100, with
exactly 10.0.0.5 on the watch-list and all maps empty, yields the FlowStats
entry for key (10.0.0.5, 443, TCP, inbound) with inbound_packets 1,
inbound_bytes 100, connection_count 1; ProtocolStats for 10.0.0.5 with
tcp_packets 1, tcp_bytes 100; and PortStats for port 443 with total_packets 1,
total_bytes 100, active_connections 1. -/
theorem end_to_end_single_tcp_packet :
    ((alookup (⟨167772165, 443, 6, 0⟩ : FlowKey)
        (try_xdp_firewall c1Buf c1State0 777).1.flow_stats).map
        (fun st => (st.inbound_packets, st.inbound_bytes, st.connection_count))
      = some (1, 100, 1))
    ∧ ((alookup 167772165 (try_xdp_firewall c1Buf c1State0 777).1.ip_protocol_stats).map
        (fun st => (st.tcp_packets, st.tcp_bytes)) = some (1, 100))
    ∧ ((alookup 443 (try_xdp_firewall c1Buf c1State0 777).1.port_stats).map
        (fun st => (st.total_packets, st.total_bytes, st.active_connections))
      = some (1, 100, 1)) := by
  decide

/-- Claim C2: `ptr_at` succeeds exactly when `offset + N ≤ data_end` and
otherwise fails out-of-bounds; and whenever the buffer is too short for a
required header (Ethernet, IPv4, or the TCP/UDP header selected by the parsed
protocol), `try_xdp_firewall` fails and returns the map state unchanged, so no
counter in any of the three maps is mutated. -/
theorem ptr_at_bounds_and_short_buffer_no_mutation :
    (∀ (buf : List Nat) (off n : Nat), (ptr_at buf off n).isOk = true ↔ off + n ≤ buf.length)
    ∧ (∀ (buf : List Nat) (off n : Nat), buf.length < off + n →
        ptr_at buf off n = .outOfBounds)
    ∧ (∀ (buf : List Nat) (s : MapsState) (now : Nat), buf.length < EthHdrLen →
        try_xdp_firewall buf s now = (s, .fail))
    ∧ (∀ (buf : List Nat) (s : MapsState) (now : Nat), readU16 buf 12 = 0x0800 →
        buf.length < EthHdrLen + Ipv4HdrLen → try_xdp_firewall buf s now = (s, .fail))
    ∧ (∀ (buf : List Nat) (s : MapsState) (now : Nat), readU16 buf 12 = 0x0800 →
        readU8 buf 23 = PROTOCOL_TCP → buf.length < EthHdrLen + Ipv4HdrLen + TcpHdrLen →
        try_xdp_firewall buf s now = (s, .fail))
    ∧ (∀ (buf : List Nat) (s : MapsState) (now : Nat), readU16 buf 12 = 0x0800 →
        readU8 buf 23 = PROTOCOL_UDP → buf.length < EthHdrLen + Ipv4HdrLen + UdpHdrLen →
        try_xdp_firewall buf s now = (s, .fail)) := by
  refine ⟨?_, ?_, ?_, ?_, ?_, ?_⟩
  · intro buf off n
    simp only [ptr_at]
    split <;> simp [PtrResult.isOk] <;> omega
  · intro buf off n h
    simp only [ptr_at]
    rw [if_pos h]
  · intro buf s now h
    simp only [try_xdp_firewall, EthHdrLen, Ipv4HdrLen, TcpHdrLen, UdpHdrLen,
      PROTOCOL_TCP, PROTOCOL_UDP] at *
    repeat' split
    all_goals first
      | rfl
      | (exfalso; simp_all only [ptr_at_eq_ok_iff, ptr_at_eq_oob_iff]; omega)
      | (exfalso; omega)
  · intro buf s now he h
    simp only [try_xdp_firewall, EthHdrLen, Ipv4HdrLen, TcpHdrLen, UdpHdrLen,
      PROTOCOL_TCP, PROTOCOL_UDP] at *
    repeat' split
    all_goals first
      | rfl
      | (exfalso; simp_all only [ptr_at_eq_ok_iff, ptr_at_eq_oob_iff]; omega)
      | (exfalso; omega)
  · intro buf s now he hp h
    simp only [try_xdp_firewall, EthHdrLen, Ipv4HdrLen, TcpHdrLen, UdpHdrLen,
      PROTOCOL_TCP, PROTOCOL_UDP] at *
    repeat' split
    all_goals first
      | rfl
      | (exfalso; simp_all only [ptr_at_eq_ok_iff, ptr_at_eq_oob_iff]; omega)
      | (exfalso; omega)
  · intro buf s now he hp h
    simp only [try_xdp_firewall, EthHdrLen, Ipv4HdrLen, TcpHdrLen, UdpHdrLen,
      PROTOCOL_TCP, PROTOCOL_UDP] at *
    repeat' split
    all_goals first
      | rfl
      | (exfalso; simp_all only [ptr_at_eq_ok_iff, ptr_at_eq_oob_iff]; omega)
      | (exfalso; omega)

/-- Witness for C2: the one-byte buffer is too short for the Ethernet header,
so processing fails and the (empty) maps are unchanged. -/
theorem short_buffer_no_mutation_witness :
    try_xdp_firewall [0] ⟨[], [], [], []⟩ 0 = (⟨[], [], [], []⟩, .fail) :=
  ptr_at_bounds_and_short_buffer_no_mutation.2.2.1 [0] ⟨[], [], [], []⟩ 0 (by decide)

/-- Claim C4: the classifier entry point always returns `XDP_PASS` or
`XDP_ABORTED` (never an exception); every successful run of
`try_xdp_firewall` returns `XDP_PASS`; a `.fail` outcome leaves the maps
untouched and is mapped to `XDP_ABORTED`, which is distinct from `XDP_PASS`;
non-IPv4 ether types and non-TCP/UDP IP protocols short-circuit to `XDP_PASS`
without touching the maps. -/
theorem classifier_always_pass_or_aborted :
    ∀ (buf : List Nat) (s : MapsState) (now : Nat),
      ((xdp_firewall buf s now).2 = XDP_PASS ∨ (xdp_firewall buf s now).2 = XDP_ABORTED)
      ∧ (∀ r s1, try_xdp_firewall buf s now = (s1, .ok r) → r = XDP_PASS)
      ∧ ((try_xdp_firewall buf s now).2 = .fail →
          try_xdp_firewall buf s now = (s, .fail)
            ∧ xdp_firewall buf s now = (s, XDP_ABORTED))
      ∧ (EthHdrLen ≤ buf.length → readU16 buf 12 ≠ 0x0800 →
          try_xdp_firewall buf s now = (s, .ok XDP_PASS))
      ∧ (EthHdrLen + Ipv4HdrLen ≤ buf.length → readU16 buf 12 = 0x0800 →
          readU8 buf 23 ≠ PROTOCOL_TCP → readU8 buf 23 ≠ PROTOCOL_UDP →
          try_xdp_firewall buf s now = (s, .ok XDP_PASS))
      ∧ XDP_ABORTED ≠ XDP_PASS := by
  intro buf s now
  have hshape := try_xdp_firewall_shape buf s now
  refine ⟨?_, ?_, ?_, ?_, ?_, by decide⟩
  · rcases hshape with h | ⟨s1, h⟩ <;> simp [xdp_firewall, h]
  · intro r s1 h
    rcases hshape with h' | ⟨s2, h'⟩ <;> rw [h'] at h
    · simp at h
    · have h2 : PacketResult.ok XDP_PASS = PacketResult.ok r := congrArg Prod.snd h
      exact (PacketResult.ok.inj h2).symm
  · intro h
    rcases hshape with h' | ⟨s1, h'⟩
    · exact ⟨h', by simp [xdp_firewall, h']⟩
    · rw [h'] at h
      exact absurd h (by simp)
  · intro hl he
    simp only [try_xdp_firewall, EthHdrLen, Ipv4HdrLen, TcpHdrLen, UdpHdrLen,
      PROTOCOL_TCP, PROTOCOL_UDP] at *
    repeat' split
    all_goals first
      | rfl
      | (exfalso; simp_all only [ptr_at_eq_ok_iff, ptr_at_eq_oob_iff]; omega)
      | (exfalso; omega)
  · intro hl he hp1 hp2
    simp only [try_xdp_firewall, EthHdrLen, Ipv4HdrLen, TcpHdrLen, UdpHdrLen,
      PROTOCOL_TCP, PROTOCOL_UDP] at *
    repeat' split
    all_goals first
      | rfl
      | (exfalso; simp_all only [ptr_at_eq_ok_iff, ptr_at_eq_oob_iff]; omega)
      | (exfalso; omega)

/-- Witness for C4: a 14-byte IPv6 frame (ether type 0x86DD) short-circuits to
`XDP_PASS` with the maps untouched. -/
theorem classifier_pass_witness :
    try_xdp_firewall [0,0,0,0,0,0,0,0,0,0,0,0,134,221] ⟨[], [], [], [7]⟩ 3
      = (⟨[], [], [], [7]⟩, .ok XDP_PASS) :=
  (classifier_always_pass_or_aborted [0,0,0,0,0,0,0,0,0,0,0,0,134,221]
    ⟨[], [], [], [7]⟩ 3).2.2.2.1 (by decide) (by decide)

/-- Claim C8: on an already-present flow map entry, one packet adds exactly 1
to `connection_count` (below the `u32` wrap bound) and sets `last_seen` to the
packet's timestamp; on an already-present per-IP protocol entry, one TCP
packet adds exactly 1 to `tcp_flows` and one UDP packet adds exactly 1 to
`udp_flows` — the counters advance once per observed packet. -/
theorem existing_entry_per_packet_increments :
    ∀ (m : List (FlowKey × EnhancedTrafficStats)) (pm : List (Nat × ProtocolStats))
      (ip port proto dir bytes ts : Nat) (st : EnhancedTrafficStats) (ps : ProtocolStats),
      (alookup (⟨ip, port, proto, dir⟩ : FlowKey) m = some st →
        st.connection_count + 1 < M32 →
        ∃ st', alookup (⟨ip, port, proto, dir⟩ : FlowKey)
            (update_flow_stats m ip port proto dir bytes ts) = some st'
          ∧ st'.connection_count = st.connection_count + 1 ∧ st'.last_seen = ts)
      ∧ (alookup ip pm = some ps → ps.tcp_flows + 1 < M32 →
          ∃ ps', alookup ip (update_protocol_stats pm ip PROTOCOL_TCP bytes 1) = some ps'
            ∧ ps'.tcp_flows = ps.tcp_flows + 1)
      ∧ (alookup ip pm = some ps → ps.udp_flows + 1 < M32 →
          ∃ ps', alookup ip (update_protocol_stats pm ip PROTOCOL_UDP bytes 1) = some ps'
            ∧ ps'.udp_flows = ps.udp_flows + 1) := by
  intro m pm ip port proto dir bytes ts st ps
  refine ⟨?_, ?_, ?_⟩
  · intro hlook hcc
    simp only [update_flow_stats, hlook]
    refine ⟨_, alookup_aput_self _ _ _, ?_, ?_⟩
    · by_cases hd : dir = DIRECTION_INBOUND <;>
        simp [hd, add32, Nat.mod_eq_of_lt hcc]
    · by_cases hd : dir = DIRECTION_INBOUND <;> simp [hd]
  · intro hlook hcc
    simp only [update_protocol_stats, hlook, PROTOCOL_TCP, PROTOCOL_UDP, if_pos]
    exact ⟨_, alookup_aput_self _ _ _, by simp [add32, Nat.mod_eq_of_lt hcc]⟩
  · intro hlook hcc
    have h6 : ¬ (PROTOCOL_UDP = PROTOCOL_TCP) := by decide
    simp only [update_protocol_stats, hlook, h6, if_false, if_pos, ite_false]
    exact ⟨_, alookup_aput_self _ _ _, by simp [add32, Nat.mod_eq_of_lt hcc]⟩

/-- Witness for C8: a singleton flow map and protocol map; the packet bumps
`connection_count` from 4 to 5 and `tcp_flows` from 2 to 3. -/
theorem per_packet_increment_witness :
    (∃ st', alookup (⟨1, 2, 6, 0⟩ : FlowKey)
        (update_flow_stats [(⟨1, 2, 6, 0⟩, ⟨9, 9, 9, 9, 6, 0, 4⟩)] 1 2 6 0 50 123)
        = some st' ∧ st'.connection_count = 4 + 1 ∧ st'.last_seen = 123)
    ∧ (∃ ps', alookup 1 (update_protocol_stats [(1, ⟨2, 2, 0, 0, 0, 0⟩)] 1 PROTOCOL_TCP 50 1)
        = some ps' ∧ ps'.tcp_flows = 2 + 1) := by
  have h := existing_entry_per_packet_increments
    [(⟨1, 2, 6, 0⟩, ⟨9, 9, 9, 9, 6, 0, 4⟩)] [(1, ⟨2, 2, 0, 0, 0, 0⟩)]
    1 2 6 0 50 123 ⟨9, 9, 9, 9, 6, 0, 4⟩ ⟨2, 2, 0, 0, 0, 0⟩
  exact ⟨h.1 (by decide) (by decide), h.2.1 (by decide) (by decide)⟩

/-! ### Analytics engine (tc/src/analytics.rs)

Only the rate-relevant part of `TrafficAnalyzer` is modelled: the
`previous_totals` map (a `BTreeMap<String, u64>`), the elapsed-time adjustment
of `analyze_ebpf_data` (lines 100-106), and `calculate_realtime_metrics`
(lines 163-230). The single aggregation loop of the source is rendered as one
fold per independent accumulator.
-/

def totalBytesOfFlows (flows : List (FlowKey × EnhancedTrafficStats)) : Nat :=
  flows.foldl (fun acc e => add64 acc e.2.total_bytes) 0

def totalPacketsOfFlows (flows : List (FlowKey × EnhancedTrafficStats)) : Nat :=
  flows.foldl (fun acc e => add64 acc e.2.total_packets) 0

structure RealtimeMetrics where
  total_bandwidth_bps : Nat
  total_packet_rate_pps : Nat
  active_flows : Nat
  active_ips : Nat
  tcp_connections : Nat
  udp_connections : Nat
  last_updated : Nat
deriving DecidableEq

structure AnalyzerState where
  previous_totals : List (String × Nat)
deriving DecidableEq

/-- Model of `calculate_realtime_metrics` (analytics.rs lines 163-230):
aggregate the flow map, compute both rates against `previous_totals` with the
already-adjusted divisor, and store the new totals for the next cycle. -/
def calculate_realtime_metrics (st : AnalyzerState)
    (flows : List (FlowKey × EnhancedTrafficStats)) (time_diff_secs now : Nat) :
    RealtimeMetrics × AnalyzerState :=
  let total_bytes := totalBytesOfFlows flows
  let total_packets := totalPacketsOfFlows flows
  let active_flows := flows.foldl (fun n _ => add32 n 1) 0
  let tcp_connections := flows.foldl
    (fun n e => if e.1.protocol = PROTOCOL_TCP then add32 n e.2.connection_count else n) 0
  let udp_connections := flows.foldl
    (fun n e => if e.1.protocol = PROTOCOL_UDP then add32 n e.2.connection_count else n) 0
  let active_ips := ((flows.map (fun e => e.1.ip)).dedup).length % M32
  let previous_bytes := (alookup "total_bytes" st.previous_totals).getD 0
  let bandwidth_bps :=
    if previous_bytes < total_bytes then (total_bytes - previous_bytes) / time_diff_secs
    else 0
  let previous_packets := (alookup "total_packets" st.previous_totals).getD 0
  let packet_rate_pps :=
    if previous_packets < total_packets then
      (total_packets - previous_packets) / time_diff_secs
    else 0
  (⟨bandwidth_bps, packet_rate_pps, active_flows, active_ips, tcp_connections,
      udp_connections, now⟩,
    ⟨aput "total_packets" total_packets (aput "total_bytes" total_bytes st.previous_totals)⟩)

/-- Model of the elapsed-seconds adjustment in `analyze_ebpf_data`
(analytics.rs lines 101-106): a zero elapsed time is replaced by 1. -/
def rate_time_diff (elapsed : Nat) : Nat := if elapsed = 0 then 1 else elapsed

/-- Model of the rate-computation path of `analyze_ebpf_data`: adjust the
elapsed seconds, then run `calculate_realtime_metrics`. -/
def analyze_realtime (st : AnalyzerState)
    (flows : List (FlowKey × EnhancedTrafficStats)) (elapsed now : Nat) :
    RealtimeMetrics × AnalyzerState :=
  calculate_realtime_metrics st flows (rate_time_diff elapsed) now

/-- Claim C6: each cycle reports bandwidth and packet rate equal to
(current total − previous total) / max(elapsed seconds, 1) in exact integer
arithmetic, and 0 whenever the current total is not strictly greater than the
previous one; the new state stores the current totals; and concretely,
previous total 1000 bytes, current total 1500 bytes and 5 elapsed seconds
yield 100 bytes/sec. -/
theorem realtime_rate_formula :
    (∀ (st : AnalyzerState) (flows : List (FlowKey × EnhancedTrafficStats))
        (elapsed now : Nat),
      ((analyze_realtime st flows elapsed now).1.total_bandwidth_bps =
        if (alookup "total_bytes" st.previous_totals).getD 0 < totalBytesOfFlows flows then
          (totalBytesOfFlows flows - (alookup "total_bytes" st.previous_totals).getD 0)
            / max elapsed 1
        else 0)
      ∧ ((analyze_realtime st flows elapsed now).1.total_packet_rate_pps =
        if (alookup "total_packets" st.previous_totals).getD 0 < totalPacketsOfFlows flows
        then
          (totalPacketsOfFlows flows - (alookup "total_packets" st.previous_totals).getD 0)
            / max elapsed 1
        else 0)
      ∧ alookup "total_bytes" (analyze_realtime st flows elapsed now).2.previous_totals
          = some (totalBytesOfFlows flows)
      ∧ alookup "total_packets" (analyze_realtime st flows elapsed now).2.previous_totals
          = some (totalPacketsOfFlows flows))
    ∧ (analyze_realtime ⟨[("total_bytes", 1000), ("total_packets", 10)]⟩
        [(⟨1, 2, 6, 0⟩, ⟨3, 1500, 0, 0, 6, 0, 3⟩)] 5 0).1.total_bandwidth_bps = 100 := by
  constructor
  · intro st flows elapsed now
    have hdiff : rate_time_diff elapsed = max elapsed 1 := by
      simp only [rate_time_diff]
      split <;> omega
    refine ⟨?_, ?_, ?_, ?_⟩
    · simp [analyze_realtime, calculate_realtime_metrics, hdiff]
    · simp [analyze_realtime, calculate_realtime_metrics, hdiff]
    · simp only [analyze_realtime, calculate_realtime_metrics]
      rw [alookup_aput_ne _ _ _ _ (by decide), alookup_aput_self]
    · simp only [analyze_realtime, calculate_realtime_metrics]
      rw [alookup_aput_self]
  · decide

/-! ### Byte strings and their lexicographic order (tc/src/storage.rs)

RocksDB keys are ASCII strings; they are modelled as lists of byte values.
`bytesCmp` is the lexicographic three-way comparison used by Rust's `Ord` on
strings/byte slices; the source compares keys with `<=` and `>`, modelled by
`bytesLe` and `bytesGt`.
-/

abbrev Bytes := List Nat

def bytesCmp : Bytes → Bytes → Ordering
  | [], [] => .eq
  | [], _ :: _ => .lt
  | _ :: _, [] => .gt
  | a :: as, b :: bs => if a < b then .lt else if b < a then .gt else bytesCmp as bs

def bytesGt (a b : Bytes) : Bool :=
  match bytesCmp a b with
  | .gt => true
  | _ => false

def bytesLe (a b : Bytes) : Bool := !(bytesGt a b)

def bytesLt (a b : Bytes) : Bool :=
  match bytesCmp a b with
  | .lt => true
  | _ => false

/-- Decimal digit bytes of `n`, most significant first, as produced by Rust's
`format!("{}", n)`; ASCII digit `d` is byte `48 + d`. The fuel argument of
`natBytesAux` only enforces termination. -/
def natBytesAux : Nat → Nat → Bytes
  | 0, _ => []
  | fuel + 1, n => if n < 10 then [n + 48] else natBytesAux fuel (n / 10) ++ [n % 10 + 48]

def natBytes (n : Nat) : Bytes := natBytesAux (n + 1) n

/-- Fixed-width zero-padded decimal rendering: `padDigits k a` is the `k`
digit bytes of `a < 10 ^ k`, most significant first. -/
def padDigits : Nat → Nat → Bytes
  | 0, _ => []
  | k + 1, a => (a / 10 ^ k + 48) :: padDigits k (a % 10 ^ k)

def TS_MOD : Nat := 10 ^ 10

/-- Model of `format!("{:010}", ts)`: zero-pad to width 10; timestamps of 11
or more digits render unpadded. -/
def ts10 (t : Nat) : Bytes := if t < TS_MOD then padDigits 10 t else natBytes t

/-- Decimal value of a digit-byte string (inverse of the renderings). -/
def decodeBytes (l : Bytes) : Nat := l.foldl (fun acc b => acc * 10 + (b - 48)) 0

/-! ASCII byte lists of the six key-family tags. -/

def flowTag : Bytes := [102, 108, 111, 119, 58]

def ipFlowsTag : Bytes := [105, 112, 95, 102, 108, 111, 119, 115, 58]

def portFlowsTag : Bytes := [112, 111, 114, 116, 95, 102, 108, 111, 119, 115, 58]

def protocolTag : Bytes := [112, 114, 111, 116, 111, 99, 111, 108, 58]

def ipProtocolTag : Bytes := [105, 112, 95, 112, 114, 111, 116, 111, 99, 111, 108, 58]

def portStatsTag : Bytes := [112, 111, 114, 116, 95, 115, 116, 97, 116, 115, 58]

/-! ### Stored records and the six key formats -/

structure FlowRecord where
  timestamp : Nat
  flow_key : FlowKey
  stats : EnhancedTrafficStats
deriving DecidableEq

structure ProtocolRecord where
  timestamp : Nat
  ip : Nat
  stats : ProtocolStats
deriving DecidableEq

structure PortRecord where
  timestamp : Nat
  port : Nat
  stats : PortStats
deriving DecidableEq

/-- A stored value: the deserialized form of the bincode payload. A
deserialization as the wrong record type fails (`desFlow`, `desProto`). -/
inductive DBVal where
  | flowV (r : FlowRecord)
  | protoV (r : ProtocolRecord)
  | portV (r : PortRecord)
deriving DecidableEq

def desFlow : DBVal → Option FlowRecord
  | .flowV r => some r
  | _ => none

def desProto : DBVal → Option ProtocolRecord
  | .protoV r => some r
  | _ => none

/-- The six key shapes written by `store_traffic_snapshot`
(storage.rs lines 61-133), with their dimension fields. -/
inductive KeyInfo where
  | flowK (ts ip port protocol direction : Nat)
  | ipFlowsK (ip ts port protocol direction : Nat)
  | portFlowsK (port ts ip protocol direction : Nat)
  | protoK (ts ip : Nat)
  | ipProtoK (ip ts : Nat)
  | portStatsK (ts port : Nat)
deriving DecidableEq

/-- Byte rendering of each key format, matching the `format!` strings of
storage.rs (58 is the ASCII colon). -/
def renderKey : KeyInfo → Bytes
  | .flowK ts ip port protocol direction =>
      flowTag ++ ts10 ts ++ [58] ++ natBytes ip ++ [58] ++ natBytes port
        ++ [58] ++ natBytes protocol ++ [58] ++ natBytes direction
  | .ipFlowsK ip ts port protocol direction =>
      ipFlowsTag ++ natBytes ip ++ [58] ++ ts10 ts ++ [58] ++ natBytes port
        ++ [58] ++ natBytes protocol ++ [58] ++ natBytes direction
  | .portFlowsK port ts ip protocol direction =>
      portFlowsTag ++ natBytes port ++ [58] ++ ts10 ts ++ [58] ++ natBytes ip
        ++ [58] ++ natBytes protocol ++ [58] ++ natBytes direction
  | .protoK ts ip => protocolTag ++ ts10 ts ++ [58] ++ natBytes ip
  | .ipProtoK ip ts => ipProtocolTag ++ natBytes ip ++ [58] ++ ts10 ts
  | .portStatsK ts port => portStatsTag ++ ts10 ts ++ [58] ++ natBytes port

/-! ### The storage engine operations (tc/src/storage.rs) -/

/-- The three puts of one iteration of the flow loop of
`store_traffic_snapshot` (storage.rs lines 72-99): primary key, by-IP index,
by-port index, all sharing the once-serialized record. -/
def flowWrites (ts : Nat) (e : FlowKey × EnhancedTrafficStats) : List (Bytes × DBVal) :=
  [(renderKey (.flowK ts e.1.ip e.1.port e.1.protocol e.1.direction),
      DBVal.flowV ⟨ts, e.1, e.2⟩),
    (renderKey (.ipFlowsK e.1.ip ts e.1.port e.1.protocol e.1.direction),
      DBVal.flowV ⟨ts, e.1, e.2⟩),
    (renderKey (.portFlowsK e.1.port ts e.1.ip e.1.protocol e.1.direction),
      DBVal.flowV ⟨ts, e.1, e.2⟩)]

/-- The two puts of one iteration of the protocol loop (lines 102-116). -/
def protoWrites (ts : Nat) (e : Nat × ProtocolStats) : List (Bytes × DBVal) :=
  [(renderKey (.protoK ts e.1), DBVal.protoV ⟨ts, e.1, e.2⟩),
    (renderKey (.ipProtoK e.1 ts), DBVal.protoV ⟨ts, e.1, e.2⟩)]

/-- The single put of one iteration of the port loop (lines 119-129). -/
def portWrite (ts : Nat) (e : Nat × PortStats) : Bytes × DBVal :=
  (renderKey (.portStatsK ts e.1), DBVal.portV ⟨ts, e.1, e.2⟩)

/-- The `WriteBatch` filled by `store_traffic_snapshot` (storage.rs lines
61-129): three writes per flow entry, two per protocol entry, one per port
entry, each flow/protocol record serialized once and reused. -/
def storeBatch (ts : Nat) (flows : List (FlowKey × EnhancedTrafficStats))
    (protocols : List (Nat × ProtocolStats)) (ports : List (Nat × PortStats)) :
    List (Bytes × DBVal) :=
  flows.flatMap (flowWrites ts) ++ protocols.flatMap (protoWrites ts)
    ++ ports.map (portWrite ts)

/-- Applying a write batch to the keyed store: each `put` upserts its key. -/
def applyBatch (db batch : List (Bytes × DBVal)) : List (Bytes × DBVal) :=
  batch.foldl (fun d e => aput e.1 e.2 d) db

/-- Model of `store_traffic_snapshot`: build one batch and apply it with a
single `db.write`. -/
def store_traffic_snapshot (db : List (Bytes × DBVal)) (ts : Nat)
    (flows : List (FlowKey × EnhancedTrafficStats))
    (protocols : List (Nat × ProtocolStats)) (ports : List (Nat × PortStats)) :
    List (Bytes × DBVal) :=
  applyBatch db (storeBatch ts flows protocols ports)

/-- The shared range-scan loop of the query functions: visit entries in
order; break at the first key that no longer starts with `tag` or compares
greater than `endKey`; deserialize each visited value, skipping failures. -/
def scanLoop {ρ : Type} (tag endKey : Bytes) (des : DBVal → Option ρ) :
    List (Bytes × DBVal) → List ρ
  | [] => []
  | e :: rest =>
    if tag.isPrefixOf e.1 && bytesLe e.1 endKey then
      match des e.2 with
      | some r => r :: scanLoop tag endKey des rest
      | none => scanLoop tag endKey des rest
    else []

/-- Model of `IteratorMode::From(start, Forward)` on the sorted store: skip
every key below `start`. -/
def iterFrom (start : Bytes) (db : List (Bytes × DBVal)) : List (Bytes × DBVal) :=
  db.dropWhile (fun e => bytesLt e.1 start)

/-- Model of `get_ip_flows_history` (storage.rs lines 136-168): scan from
`ip_flows:{ip}:{start_ts10}:` while keys keep the `ip_flows:{ip}:` tag and do
not exceed `ip_flows:{ip}:{end_ts10}:`. -/
def get_ip_flows_history (db : List (Bytes × DBVal)) (ip t0 t1 : Nat) :
    List FlowRecord :=
  scanLoop (ipFlowsTag ++ natBytes ip ++ [58])
    (ipFlowsTag ++ natBytes ip ++ [58] ++ ts10 t1 ++ [58]) desFlow
    (iterFrom (ipFlowsTag ++ natBytes ip ++ [58] ++ ts10 t0 ++ [58]) db)

/-- Model of `get_protocol_stats_history` (storage.rs lines 225-257): scan
from `ip_protocol:{ip}:{start_ts10}` (no trailing colon) while keys keep the
`ip_protocol:{ip}:` tag and do not exceed `ip_protocol:{ip}:{end_ts10}` (no
trailing colon). -/
def get_protocol_stats_history (db : List (Bytes × DBVal)) (ip t0 t1 : Nat) :
    List ProtocolRecord :=
  scanLoop (ipProtocolTag ++ natBytes ip ++ [58])
    (ipProtocolTag ++ natBytes ip ++ [58] ++ ts10 t1) desProto
    (iterFrom (ipProtocolTag ++ natBytes ip ++ [58] ++ ts10 t0) db)

/-- The per-key deletion test of `cleanup_old_data` (storage.rs lines
383-402): the if/else-if chain over the three primary key families, each
compared `<=` against `"{family}:{before_ts10}:"`. -/
def shouldDelete (before : Nat) (k : Bytes) : Bool :=
  if flowTag.isPrefixOf k && bytesLe k (flowTag ++ ts10 before ++ [58]) then true
  else if protocolTag.isPrefixOf k
      && bytesLe k (protocolTag ++ ts10 before ++ [58]) then true
  else if portStatsTag.isPrefixOf k
      && bytesLe k (portStatsTag ++ ts10 before ++ [58]) then true
  else false

/-- Model of `cleanup_old_data` (storage.rs lines 373-409): one pass over all
keys collects a delete batch and a count; applying the batch removes exactly
the collected keys. Returns the store after the batch and the count. -/
def cleanup_old_data (db : List (Bytes × DBVal)) (before : Nat) :
    List (Bytes × DBVal) × Nat :=
  (db.filter (fun e => !shouldDelete before e.1),
    db.countP (fun e => shouldDelete before e.1))

/-! ### Lemmas about the byte-lexicographic order -/

theorem bytesCmp_eq_eq_iff (a : Bytes) : ∀ b, bytesCmp a b = .eq ↔ a = b := by
  induction a with
  | nil => intro b; cases b <;> simp [bytesCmp]
  | cons x xs ih =>
    intro b
    cases b with
    | nil => simp [bytesCmp]
    | cons y ys =>
      simp only [bytesCmp]
      split_ifs with h1 h2 <;> simp [ih] <;> omega

theorem bytesCmp_swap (a : Bytes) : ∀ b, bytesCmp b a = (bytesCmp a b).swap := by
  induction a with
  | nil => intro b; cases b <;> simp [bytesCmp, Ordering.swap]
  | cons x xs ih =>
    intro b
    cases b with
    | nil => simp [bytesCmp, Ordering.swap]
    | cons y ys =>
      simp only [bytesCmp]
      rcases Nat.lt_trichotomy x y with h | h | h
      · have h' : ¬ y < x := by omega
        simp [h, h', Ordering.swap]
      · subst h
        simp only [Nat.lt_irrefl, if_false]
        exact ih ys
      · have h' : ¬ x < y := by omega
        simp [h, h', Ordering.swap]

theorem bytesLe_nil (b : Bytes) : bytesLe [] b = true := by
  cases b <;> rfl

theorem bytesLe_cons_iff (x y : Nat) (xs ys : Bytes) :
    bytesLe (x :: xs) (y :: ys) = true ↔
      x < y ∨ (x = y ∧ bytesLe xs ys = true) := by
  rcases Nat.lt_trichotomy x y with h | h | h
  · have h' : ¬ y < x := by omega
    simp [bytesLe, bytesGt, bytesCmp, h, h']
  · subst h
    simp [bytesLe, bytesGt, bytesCmp, Nat.lt_irrefl]
  · have h' : ¬ x < y := by omega
    simp [bytesLe, bytesGt, bytesCmp, h, h']
    intro hxy
    omega

theorem bytesLt_cons_iff (x y : Nat) (xs ys : Bytes) :
    bytesLt (x :: xs) (y :: ys) = true ↔
      x < y ∨ (x = y ∧ bytesLt xs ys = true) := by
  rcases Nat.lt_trichotomy x y with h | h | h
  · have h' : ¬ y < x := by omega
    simp [bytesLt, bytesCmp, h, h']
  · subst h
    simp [bytesLt, bytesCmp, Nat.lt_irrefl]
  · have h' : ¬ x < y := by omega
    simp [bytesLt, bytesCmp, h, h']
    intro hxy
    omega

theorem bytesLe_eq_not_bytesLt (a b : Bytes) : bytesLe a b = !(bytesLt b a) := by
  simp only [bytesLe, bytesGt, bytesLt, bytesCmp_swap a b]
  cases bytesCmp a b <;> rfl

theorem bytesLt_le (a b : Bytes) (h : bytesLt a b = true) : bytesLe a b = true := by
  simp only [bytesLt] at h
  simp only [bytesLe, bytesGt]
  rcases hc : bytesCmp a b <;> simp_all

theorem bytesLe_trans (a : Bytes) : ∀ b c, bytesLe a b = true → bytesLe b c = true →
    bytesLe a c = true := by
  induction a with
  | nil => intro b c _ _; exact bytesLe_nil c
  | cons x xs ih =>
    intro b c hab hbc
    cases b with
    | nil => simp [bytesLe, bytesGt, bytesCmp] at hab
    | cons y ys =>
      cases c with
      | nil => simp [bytesLe, bytesGt, bytesCmp] at hbc
      | cons z zs =>
        rw [bytesLe_cons_iff] at hab hbc ⊢
        rcases hab with h1 | ⟨h1, h1'⟩ <;> rcases hbc with h2 | ⟨h2, h2'⟩
        · exact Or.inl (by omega)
        · exact Or.inl (by omega)
        · exact Or.inl (by omega)
        · exact Or.inr ⟨by omega, ih ys zs h1' h2'⟩

/-! ### Lemmas about `isPrefixOf` on byte strings -/

theorem isPrefixOf_cons (a b : Nat) (as bs : Bytes) :
    (a :: as).isPrefixOf (b :: bs) = (a == b && as.isPrefixOf bs) := rfl

theorem isPrefixOf_append_cancel (p : Bytes) (q r : Bytes) :
    (p ++ q).isPrefixOf (p ++ r) = q.isPrefixOf r := by
  induction p with
  | nil => simp
  | cons x xs ih => simp [isPrefixOf_cons, ih]

theorem isPrefixOf_self_append (p x : Bytes) : p.isPrefixOf (p ++ x) = true := by
  induction p with
  | nil => simp [List.isPrefixOf]
  | cons a as ih => simp [isPrefixOf_cons, ih]

/-- Keys lying between two keys that share a tag also carry that tag: the set
of keys with a given tag is a lexicographic interval. -/
theorem isPrefixOf_of_between (p : Bytes) :
    ∀ a b k, p.isPrefixOf a = true → p.isPrefixOf b = true →
      bytesLe a k = true → bytesLe k b = true → p.isPrefixOf k = true := by
  induction p with
  | nil => intro a b k _ _ _ _; simp [List.isPrefixOf]
  | cons c p' ih =>
    intro a b k ha hb hak hkb
    cases a with
    | nil => simp [List.isPrefixOf] at ha
    | cons xa as =>
      cases b with
      | nil => simp [List.isPrefixOf] at hb
      | cons xb bs =>
        rw [isPrefixOf_cons] at ha hb
        obtain ⟨hca, ha'⟩ := (Bool.and_eq_true _ _).mp ha
        obtain ⟨hcb, hb'⟩ := (Bool.and_eq_true _ _).mp hb
        have hxa : c = xa := by simpa using hca
        have hxb : c = xb := by simpa using hcb
        cases k with
        | nil => simp [bytesLe, bytesGt, bytesCmp] at hak
        | cons xk ks =>
          rw [bytesLe_cons_iff] at hak hkb
          have hck : c = xk := by omega
          rw [isPrefixOf_cons]
          refine (Bool.and_eq_true _ _).mpr ⟨by simp [hck], ?_⟩
          have hak' : bytesLe as ks = true := by
            rcases hak with h | ⟨_, h⟩
            · omega
            · exact h
          have hkb' : bytesLe ks bs = true := by
            rcases hkb with h | ⟨_, h⟩
            · omega
            · exact h
          exact ih as bs ks ha' hb' hak' hkb'

/-! ### Lemmas about decimal digit renderings -/

theorem bytesCmp_refl (a : Bytes) : bytesCmp a a = .eq :=
  (bytesCmp_eq_eq_iff a a).mpr rfl

theorem bytesLe_iff_cmp (a b : Bytes) : bytesLe a b = true ↔ bytesCmp a b ≠ .gt := by
  simp only [bytesLe, bytesGt]
  rcases bytesCmp a b <;> simp

theorem bytesLe_of_cmp_lt {a b : Bytes} (h : bytesCmp a b = .lt) : bytesLe a b = true := by
  simp [bytesLe, bytesGt, h]

theorem bytesLe_false_of_cmp_gt {a b : Bytes} (h : bytesCmp a b = .gt) :
    bytesLe a b = false := by
  simp [bytesLe, bytesGt, h]

theorem bytesCmp_append_cancel (p : Bytes) : ∀ a b,
    bytesCmp (p ++ a) (p ++ b) = bytesCmp a b := by
  induction p with
  | nil => intro a b; rfl
  | cons x xs ih => intro a b; simp [bytesCmp, Nat.lt_irrefl, ih]

theorem bytesCmp_append_of_lt (x : Bytes) : ∀ (y : Bytes), x.length = y.length →
    bytesCmp x y = .lt → ∀ u v, bytesCmp (x ++ u) (y ++ v) = .lt := by
  induction x with
  | nil =>
    intro y hlen h u v
    cases y with
    | nil => simp [bytesCmp] at h
    | cons b bs => simp at hlen
  | cons a as ih =>
    intro y hlen h u v
    cases y with
    | nil => simp at hlen
    | cons b bs =>
      simp only [bytesCmp, List.cons_append] at h ⊢
      rcases Nat.lt_trichotomy a b with hc | hc | hc
      · rw [if_pos hc]
      · subst hc
        simp only [Nat.lt_irrefl, if_false] at h ⊢
        exact ih bs (by simpa using hlen) h u v
      · rw [if_neg (by omega), if_pos hc] at h
        exact absurd h (by simp)

theorem bytesCmp_self_append (p r : Bytes) (h : r ≠ []) : bytesCmp p (p ++ r) = .lt := by
  have hc := bytesCmp_append_cancel p [] r
  rw [List.append_nil] at hc
  rw [hc]
  cases r with
  | nil => exact absurd rfl h
  | cons x xs => rfl

theorem padDigits_length (k : Nat) : ∀ a, (padDigits k a).length = k := by
  induction k with
  | zero => intro a; rfl
  | succ k ih => intro a; simp [padDigits, ih]

theorem padDigits_foldl (k : Nat) : ∀ a acc, a < 10 ^ k →
    (padDigits k a).foldl (fun acc b => acc * 10 + (b - 48)) acc = acc * 10 ^ k + a := by
  induction k with
  | zero =>
    intro a acc ha
    simp only [padDigits, List.foldl_nil, pow_zero]
    omega
  | succ k ih =>
    intro a acc ha
    have hpos : 0 < 10 ^ k := pow_pos (by norm_num) k
    simp only [padDigits, List.foldl_cons]
    rw [ih (a % 10 ^ k) _ (Nat.mod_lt _ hpos)]
    have hd := Nat.div_add_mod a (10 ^ k)
    rw [Nat.add_sub_cancel, pow_succ]
    calc (acc * 10 + a / 10 ^ k) * 10 ^ k + a % 10 ^ k
        = acc * (10 ^ k * 10) + (10 ^ k * (a / 10 ^ k) + a % 10 ^ k) := by ring
      _ = acc * (10 ^ k * 10) + a := by rw [hd]

theorem decodeBytes_padDigits (k a : Nat) (h : a < 10 ^ k) :
    decodeBytes (padDigits k a) = a := by
  have hh := padDigits_foldl k a 0 h
  simpa [decodeBytes] using hh

theorem padDigits_digit (k : Nat) : ∀ a, a < 10 ^ k → ∀ b ∈ padDigits k a,
    48 ≤ b ∧ b < 58 := by
  induction k with
  | zero => intro a ha b hb; simp [padDigits] at hb
  | succ k ih =>
    intro a ha b hb
    have hpos : 0 < 10 ^ k := pow_pos (by norm_num) k
    simp only [padDigits, List.mem_cons] at hb
    rcases hb with hb | hb
    · subst hb
      have hq : a / 10 ^ k < 10 := by
        rw [Nat.div_lt_iff_lt_mul hpos]
        rw [pow_succ] at ha
        omega
      generalize a / 10 ^ k = q at hq ⊢
      omega
    · exact ih (a % 10 ^ k) (Nat.mod_lt _ hpos) b hb

theorem bytesCmp_padDigits_lt (k : Nat) : ∀ a b, a < 10 ^ k → b < 10 ^ k → a < b →
    bytesCmp (padDigits k a) (padDigits k b) = .lt := by
  induction k with
  | zero => intro a b ha hb hab; omega
  | succ k ih =>
    intro a b ha hb hab
    have hpos : 0 < 10 ^ k := pow_pos (by norm_num) k
    simp only [padDigits, bytesCmp]
    have hq : a / 10 ^ k ≤ b / 10 ^ k := Nat.div_le_div_right (le_of_lt hab)
    have hda := Nat.div_add_mod a (10 ^ k)
    have hdb := Nat.div_add_mod b (10 ^ k)
    have hmodb : b % 10 ^ k < 10 ^ k := Nat.mod_lt _ hpos
    have hmoda : a % 10 ^ k < 10 ^ k := Nat.mod_lt _ hpos
    rcases lt_or_eq_of_le hq with h | h
    · rw [if_pos (by generalize a / 10 ^ k = qa at *; generalize b / 10 ^ k = qb at *; omega)]
    · rw [if_neg (by generalize a / 10 ^ k = qa at *; generalize b / 10 ^ k = qb at *; omega),
        if_neg (by generalize a / 10 ^ k = qa at *; generalize b / 10 ^ k = qb at *; omega)]
      apply ih _ _ hmoda hmodb
      rw [h] at hda
      generalize hT : 10 ^ k * (b / 10 ^ k) = T at hda hdb
      generalize a % 10 ^ k = ra at *
      generalize b % 10 ^ k = rb at *
      omega

theorem bytesCmp_padDigits_gt (k a b : Nat) (ha : a < 10 ^ k) (hb : b < 10 ^ k)
    (h : b < a) : bytesCmp (padDigits k a) (padDigits k b) = .gt := by
  rw [bytesCmp_swap (padDigits k b) (padDigits k a),
    bytesCmp_padDigits_lt k b a hb ha h]
  rfl

theorem bytesLe_pad_iff (k a b : Nat) (ha : a < 10 ^ k) (hb : b < 10 ^ k) :
    bytesLe (padDigits k a) (padDigits k b) = true ↔ a ≤ b := by
  rcases Nat.lt_trichotomy a b with h | h | h
  · simp [bytesLe_of_cmp_lt (bytesCmp_padDigits_lt k a b ha hb h)]
    omega
  · subst h
    simp [bytesLe_iff_cmp, bytesCmp_refl]
  · simp [bytesLe_false_of_cmp_gt (bytesCmp_padDigits_gt k a b ha hb h)]
    omega

/-- Comparing `{a10}:` against a full key suffix `{t10}:{rest}`: the start-key
test of a range scan holds exactly when `a ≤ t`. -/
theorem bytesLe_pad_colon_start (k a t : Nat) (rest : Bytes) (ha : a < 10 ^ k)
    (ht : t < 10 ^ k) :
    bytesLe (padDigits k a ++ [58]) (padDigits k t ++ 58 :: rest) = true ↔ a ≤ t := by
  rcases Nat.lt_trichotomy a t with h | h | h
  · have hc := bytesCmp_append_of_lt (padDigits k a) (padDigits k t)
      (by rw [padDigits_length, padDigits_length])
      (bytesCmp_padDigits_lt k a t ha ht h) [58] (58 :: rest)
    simp [bytesLe_of_cmp_lt hc]
    omega
  · subst h
    rcases rest with _ | ⟨x, xs⟩
    · simp [bytesLe_iff_cmp, bytesCmp_refl]
    · have hc := bytesCmp_self_append (padDigits k a ++ [58]) (x :: xs) (by simp)
      have hle := bytesLe_of_cmp_lt hc
      simp only [List.append_assoc, List.singleton_append] at hle
      simp [hle]
  · have hc := bytesCmp_append_of_lt (padDigits k t) (padDigits k a)
      (by rw [padDigits_length, padDigits_length])
      (bytesCmp_padDigits_lt k t a ht ha h) (58 :: rest) [58]
    have hgt : bytesCmp (padDigits k a ++ [58]) (padDigits k t ++ 58 :: rest) = .gt := by
      rw [bytesCmp_swap, hc]
      rfl
    simp [bytesLe_false_of_cmp_gt hgt]
    omega

/-- Comparing a full key suffix `{t10}:{rest}` against `{e10}:`: the end-key
test (`key <= end`) of a range scan holds exactly when `t < e` — a key at the
end timestamp strictly exceeds the end key because it extends it. -/
theorem bytesLe_pad_colon_end (k t e : Nat) (rest : Bytes) (ht : t < 10 ^ k)
    (he : e < 10 ^ k) (hr : rest ≠ []) :
    bytesLe (padDigits k t ++ 58 :: rest) (padDigits k e ++ [58]) = true ↔ t < e := by
  rcases Nat.lt_trichotomy t e with h | h | h
  · have hc := bytesCmp_append_of_lt (padDigits k t) (padDigits k e)
      (by rw [padDigits_length, padDigits_length])
      (bytesCmp_padDigits_lt k t e ht he h) (58 :: rest) [58]
    simp [bytesLe_of_cmp_lt hc]
    omega
  · subst h
    have hgt : bytesCmp (padDigits k t ++ 58 :: rest) (padDigits k t ++ [58]) = .gt := by
      rw [List.append_cons, bytesCmp_swap, bytesCmp_self_append _ _ hr]
      rfl
    simp [bytesLe_false_of_cmp_gt hgt]
  · have hc := bytesCmp_append_of_lt (padDigits k e) (padDigits k t)
      (by rw [padDigits_length, padDigits_length])
      (bytesCmp_padDigits_lt k e t he ht h) [58] (58 :: rest)
    have hgt : bytesCmp (padDigits k t ++ 58 :: rest) (padDigits k e ++ [58]) = .gt := by
      rw [bytesCmp_swap, hc]
      rfl
    simp [bytesLe_false_of_cmp_gt hgt]
    omega

theorem natBytes_ne_nil (n : Nat) : natBytes n ≠ [] := by
  simp only [natBytes, natBytesAux]
  split <;> simp

theorem natBytesAux_digit : ∀ fuel n, n < 10 ^ fuel → ∀ b ∈ natBytesAux fuel n,
    48 ≤ b ∧ b < 58 := by
  intro fuel
  induction fuel with
  | zero => intro n hn b hb; simp [natBytesAux] at hb
  | succ fuel ih =>
    intro n hn b hb
    simp only [natBytesAux] at hb
    split at hb
    · simp only [List.mem_singleton] at hb
      omega
    · simp only [List.mem_append, List.mem_singleton] at hb
      rcases hb with hb | hb
      · refine ih (n / 10) ?_ b hb
        rw [Nat.div_lt_iff_lt_mul (by norm_num)]
        rw [pow_succ] at hn
        omega
      · omega

theorem decode_natBytesAux : ∀ fuel n, n < 10 ^ fuel →
    decodeBytes (natBytesAux fuel n) = n := by
  intro fuel
  induction fuel with
  | zero => intro n hn; interval_cases n; rfl
  | succ fuel ih =>
    intro n hn
    simp only [natBytesAux]
    split
    · simp only [decodeBytes, List.foldl_cons, List.foldl_nil]
      omega
    · have hdiv : n / 10 < 10 ^ fuel := by
        rw [Nat.div_lt_iff_lt_mul (by norm_num)]
        rw [pow_succ] at hn
        omega
      simp only [decodeBytes, List.foldl_append, List.foldl_cons, List.foldl_nil]
      have hpre := ih (n / 10) hdiv
      simp only [decodeBytes] at hpre
      rw [hpre]
      omega

theorem lt_ten_pow_succ (n : Nat) : n < 10 ^ (n + 1) := by
  have h1 : n < 10 ^ n := Nat.lt_pow_self (by norm_num) n
  have h2 : 10 ^ n ≤ 10 ^ (n + 1) := Nat.pow_le_pow_right (by norm_num) (Nat.le_succ n)
  omega

theorem decodeBytes_natBytes (n : Nat) : decodeBytes (natBytes n) = n :=
  decode_natBytesAux (n + 1) n (lt_ten_pow_succ n)

theorem natBytes_digit (n : Nat) : ∀ b ∈ natBytes n, 48 ≤ b ∧ b < 58 :=
  natBytesAux_digit (n + 1) n (lt_ten_pow_succ n)

theorem natBytes_inj {a b : Nat} (h : natBytes a = natBytes b) : a = b := by
  have ha := decodeBytes_natBytes a
  rw [h, decodeBytes_natBytes] at ha
  omega

/-- A digit string followed by a colon is a prefix of another digit string
followed by a colon and more bytes exactly when the digit strings coincide:
digits are below 58 and the colon is 58, so the colon position is determined. -/
theorem prefixOf_digits_colon (xs : Bytes) : ∀ ys rest, (∀ u ∈ xs, u < 58) →
    (∀ u ∈ ys, u < 58) →
    ((xs ++ [58]).isPrefixOf (ys ++ 58 :: rest) = true ↔ xs = ys) := by
  induction xs with
  | nil =>
    intro ys rest hx hy
    cases ys with
    | nil => simp [isPrefixOf_cons, List.isPrefixOf]
    | cons y ys' =>
      have hy' : y < 58 := hy y (by simp)
      refine iff_of_false ?_ (by simp)
      intro h
      rw [List.cons_append, List.nil_append, isPrefixOf_cons] at h
      obtain ⟨h1, _⟩ := (Bool.and_eq_true _ _).mp h
      have h58 : (58 : Nat) = y := by simpa using h1
      omega
  | cons x xs' ih =>
    intro ys rest hx hy
    have hx58 : x < 58 := hx x (by simp)
    cases ys with
    | nil =>
      refine iff_of_false ?_ (by simp)
      intro h
      rw [List.cons_append, List.nil_append, isPrefixOf_cons] at h
      obtain ⟨h1, _⟩ := (Bool.and_eq_true _ _).mp h
      have h58 : x = 58 := by simpa using h1
      omega
    | cons y ys' =>
      simp only [List.cons_append, isPrefixOf_cons]
      by_cases hxy : x = y
      · subst hxy
        have hrec := ih ys' rest (fun u hu => hx u (by simp [hu]))
          (fun u hu => hy u (by simp [hu]))
        simp [hrec]
      · simp [hxy]

theorem prefixOf_natBytes_colon (a b : Nat) (rest : Bytes) :
    ((natBytes a ++ [58]).isPrefixOf (natBytes b ++ 58 :: rest) = true) ↔ a = b := by
  rw [prefixOf_digits_colon (natBytes a) (natBytes b) rest
    (fun u hu => (natBytes_digit a u hu).2) (fun u hu => (natBytes_digit b u hu).2)]
  exact ⟨fun h => natBytes_inj h, fun h => h ▸ rfl⟩

/-- Characterization of a range scan on a sorted store: seeking to `startKey`
and looping until the tag no longer matches or the key exceeds `endKey`
returns exactly the deserializations of the entries whose key lies in
`[startKey, endKey]` and carries the tag, in store order. Requires the scan
tag to be a prefix of the start key, which holds for every query in the
source. -/
theorem scanLoop_iterFrom_eq_filterMap {ρ : Type} (des : DBVal → Option ρ)
    (tag startKey endKey : Bytes) :
    ∀ (db : List (Bytes × DBVal)),
      db.Pairwise (fun e e' => bytesLt e.1 e'.1 = true) →
      tag.isPrefixOf startKey = true →
      scanLoop tag endKey des (iterFrom startKey db)
        = db.filterMap (fun e =>
            if bytesLe startKey e.1 = true ∧ tag.isPrefixOf e.1 = true
                ∧ bytesLe e.1 endKey = true then des e.2 else none) := by
  intro db
  induction db with
  | nil => intro _ _; simp [iterFrom, scanLoop]
  | cons e rest ih =>
    intro hsorted hstart
    obtain ⟨hall, htail⟩ := List.pairwise_cons.mp hsorted
    by_cases hdrop : bytesLt e.1 startKey = true
    · have h1 : iterFrom startKey (e :: rest) = iterFrom startKey rest := by
        simp [iterFrom, List.dropWhile_cons, hdrop]
      have hle : bytesLe startKey e.1 = false := by
        rw [bytesLe_eq_not_bytesLt, hdrop]
        rfl
      rw [h1, ih htail hstart, List.filterMap_cons]
      simp [hle]
    · simp only [Bool.not_eq_true] at hdrop
      have h1 : iterFrom startKey (e :: rest) = e :: rest := by
        simp [iterFrom, List.dropWhile_cons, hdrop]
      have hse : bytesLe startKey e.1 = true := by
        rw [bytesLe_eq_not_bytesLt, hdrop]
        rfl
      rw [h1]
      by_cases hq : (tag.isPrefixOf e.1 && bytesLe e.1 endKey) = true
      · have hrest : iterFrom startKey rest = rest := by
          cases rest with
          | nil => rfl
          | cons r rs =>
            have h2 : bytesLt e.1 r.1 = true := hall r (by simp)
            have h3 : bytesLe startKey r.1 = true :=
              bytesLe_trans _ _ _ hse (bytesLt_le _ _ h2)
            have hre : bytesLt r.1 startKey = false := by
              rw [bytesLe_eq_not_bytesLt] at h3
              simpa using h3
            simp [iterFrom, List.dropWhile_cons, hre]
        have hscan := ih htail hstart
        rw [hrest] at hscan
        obtain ⟨hq1, hq2⟩ := (Bool.and_eq_true _ _).mp hq
        have hcond : bytesLe startKey e.1 = true ∧ tag.isPrefixOf e.1 = true
            ∧ bytesLe e.1 endKey = true := ⟨hse, hq1, hq2⟩
        simp only [scanLoop]
        rw [if_pos hq, List.filterMap_cons, if_pos hcond]
        cases hdes : des e.2 with
        | some r => simp [hdes, hscan]
        | none => simp [hdes, hscan]
      · simp only [scanLoop]
        rw [if_neg hq]
        symm
        rw [List.filterMap_eq_nil]
        intro a ha
        rcases List.mem_cons.mp ha with rfl | hmem
        · rw [if_neg]
          rintro ⟨h1, h2, h3⟩
          exact hq ((Bool.and_eq_true _ _).mpr ⟨h2, h3⟩)
        · rw [if_neg]
          rintro ⟨h1, h2, h3⟩
          have helt : bytesLt e.1 a.1 = true := hall a hmem
          have hee : bytesLe e.1 a.1 = true := bytesLt_le _ _ helt
          have htag_e : tag.isPrefixOf e.1 = true :=
            isPrefixOf_of_between tag startKey a.1 e.1 hstart h2 hse hee
          have hend_e : bytesLe e.1 endKey = true := bytesLe_trans _ _ _ hee h3
          exact hq ((Bool.and_eq_true _ _).mpr ⟨htag_e, hend_e⟩)

/-! ### Well-formed stores -/

def tsOfInfo : KeyInfo → Nat
  | .flowK ts _ _ _ _ => ts
  | .ipFlowsK _ ts _ _ _ => ts
  | .portFlowsK _ ts _ _ _ => ts
  | .protoK ts _ => ts
  | .ipProtoK _ ts => ts
  | .portStatsK ts _ => ts

/-- A stored value is of the record type that its key family serializes. -/
def kindMatches : KeyInfo → DBVal → Prop
  | .flowK _ _ _ _ _, .flowV _ => True
  | .ipFlowsK _ _ _ _ _, .flowV _ => True
  | .portFlowsK _ _ _ _ _, .flowV _ => True
  | .protoK _ _, .protoV _ => True
  | .ipProtoK _ _, .protoV _ => True
  | .portStatsK _ _, .portV _ => True
  | _, _ => False

/-- Well-formedness of one stored entry: the timestamp fits in ten digits
(true until the year 2286) and the value kind matches the key family. -/
def entryOK (e : KeyInfo × DBVal) : Prop :=
  tsOfInfo e.1 < TS_MOD ∧ kindMatches e.1 e.2

/-- A store whose entries are the renderings of structured key infos. -/
def renderDB (infos : List (KeyInfo × DBVal)) : List (Bytes × DBVal) :=
  infos.map (fun e => (renderKey e.1, e.2))

theorem ts10_eq (t : Nat) (h : t < TS_MOD) : ts10 t = padDigits 10 t := by
  simp [ts10, h]

theorem bytesCmp_cons_cancel (c : Nat) (a b : Bytes) :
    bytesCmp (c :: a) (c :: b) = bytesCmp a b := by
  simp [bytesCmp, Nat.lt_irrefl]

theorem bytesLe_cons_cancel (c : Nat) (a b : Bytes) :
    bytesLe (c :: a) (c :: b) = bytesLe a b := by
  simp [bytesLe, bytesGt, bytesCmp_cons_cancel]

theorem bytesLe_append_cancel (p a b : Bytes) :
    bytesLe (p ++ a) (p ++ b) = bytesLe a b := by
  simp [bytesLe, bytesGt, bytesCmp_append_cancel]

theorem filterMap_congr_mem {α β : Type} (f g : α → Option β) :
    ∀ l : List α, (∀ x ∈ l, f x = g x) → l.filterMap f = l.filterMap g := by
  intro l
  induction l with
  | nil => intro _; rfl
  | cons x xs ih =>
    intro h
    rw [List.filterMap_cons, List.filterMap_cons, h x (by simp),
      ih (fun y hy => h y (by simp [hy]))]

theorem isPrefixOf_append_left_false (A : Bytes) : ∀ (B k : Bytes),
    A.isPrefixOf k = false → (A ++ B).isPrefixOf k = false := by
  induction A with
  | nil => intro B k h; simp [List.isPrefixOf] at h
  | cons a as ih =>
    intro B k h
    cases k with
    | nil => rfl
    | cons c ks =>
      rw [isPrefixOf_cons] at h
      rw [List.cons_append, isPrefixOf_cons]
      rcases hbe : (a == c) with _ | _
      · simp
      · simp only [hbe, Bool.true_and] at h ⊢
        exact ih B ks h

theorem isPrefixOf_append_of_not (T1 : Bytes) : ∀ T2, T1.isPrefixOf T2 = false →
    T2.isPrefixOf T1 = false → ∀ x, T1.isPrefixOf (T2 ++ x) = false := by
  induction T1 with
  | nil => intro T2 h1 _ _; simp [List.isPrefixOf] at h1
  | cons a as ih =>
    intro T2 h1 h2 x
    cases T2 with
    | nil => simp [List.isPrefixOf] at h2
    | cons b bs =>
      rw [isPrefixOf_cons] at h1 h2
      rw [List.cons_append, isPrefixOf_cons]
      rcases hbe : (a == b) with _ | _
      · simp
      · have hba : (b == a) = true := by
          have : a = b := by simpa using hbe
          simp [this]
        simp only [hbe, Bool.true_and] at h1 ⊢
        simp only [hba, Bool.true_and] at h2
        exact ih bs h1 h2 x

theorem not_prefix_of_isPrefixOf_false {A B : Bytes} (h : A.isPrefixOf B = false) :
    ¬ (A <+: B) := by
  intro hc
  obtain ⟨t, ht⟩ := hc
  have hh := isPrefixOf_self_append A t
  rw [ht, h] at hh
  exact absurd hh (by decide)

/-! ### Conditions of the `ip_flows` range scan on rendered keys -/

theorem ipFlows_tag_iff (ip ip' ts p pr d : Nat) :
    ((ipFlowsTag ++ natBytes ip ++ [58]).isPrefixOf
      (renderKey (.ipFlowsK ip' ts p pr d)) = true) ↔ ip = ip' := by
  simp only [renderKey, List.append_assoc, List.singleton_append]
  rw [isPrefixOf_append_cancel]
  exact prefixOf_natBytes_colon ip ip' _

theorem ipFlows_scan_conditions (ip ts p pr d t0 t1 : Nat)
    (hts : ts < TS_MOD) (h0 : t0 < TS_MOD) (h1 : t1 < TS_MOD) :
    (bytesLe (ipFlowsTag ++ natBytes ip ++ [58] ++ ts10 t0 ++ [58])
        (renderKey (.ipFlowsK ip ts p pr d)) = true ↔ t0 ≤ ts)
    ∧ (bytesLe (renderKey (.ipFlowsK ip ts p pr d))
        (ipFlowsTag ++ natBytes ip ++ [58] ++ ts10 t1 ++ [58]) = true ↔ ts < t1)
    ∧ ((ipFlowsTag ++ natBytes ip ++ [58]).isPrefixOf
        (renderKey (.ipFlowsK ip ts p pr d)) = true) := by
  have hts' : ts < 10 ^ 10 := by simpa [TS_MOD] using hts
  have h0' : t0 < 10 ^ 10 := by simpa [TS_MOD] using h0
  have h1' : t1 < 10 ^ 10 := by simpa [TS_MOD] using h1
  refine ⟨?_, ?_, ?_⟩
  · simp only [renderKey, ipFlowsTag, ts10_eq _ hts, ts10_eq _ h0, List.cons_append,
      List.nil_append, List.append_assoc, List.singleton_append, bytesLe_cons_cancel]
    rw [bytesLe_append_cancel, bytesLe_cons_cancel]
    exact bytesLe_pad_colon_start 10 t0 ts _ h0' hts'
  · simp only [renderKey, ipFlowsTag, ts10_eq _ hts, ts10_eq _ h1, List.cons_append,
      List.nil_append, List.append_assoc, List.singleton_append, bytesLe_cons_cancel]
    rw [bytesLe_append_cancel, bytesLe_cons_cancel]
    exact bytesLe_pad_colon_end 10 ts t1 _ hts' h1' (by simp)
  · exact (ipFlows_tag_iff ip ip ts p pr d).mpr rfl

/-- Claim C9: on a sorted well-formed store, `get_ip_flows_history` returns
exactly the stored `ip_flows` records of the queried IP whose timestamp lies
in the half-open range `[t0, t1)`, in store order: the scan starts at the
start-of-range key and stops at the first key that leaves the
`ip_flows:{ip}:` tag or lexicographically exceeds the end-range key. -/
theorem ip_flows_history_exact_range
    (infos : List (KeyInfo × DBVal)) (ip t0 t1 : Nat)
    (hOK : ∀ e ∈ infos, entryOK e)
    (hsorted : (renderDB infos).Pairwise (fun e e' => bytesLt e.1 e'.1 = true))
    (h0 : t0 < TS_MOD) (h1 : t1 < TS_MOD) :
    get_ip_flows_history (renderDB infos) ip t0 t1
      = infos.filterMap (fun e =>
          match e with
          | (.ipFlowsK ip' ts _ _ _, .flowV r) =>
            if ip' = ip ∧ t0 ≤ ts ∧ ts < t1 then some r else none
          | _ => none) := by
  unfold get_ip_flows_history
  have hstart : (ipFlowsTag ++ natBytes ip ++ [58]).isPrefixOf
      (ipFlowsTag ++ natBytes ip ++ [58] ++ ts10 t0 ++ [58]) = true := by
    have hh := isPrefixOf_self_append (ipFlowsTag ++ natBytes ip ++ [58]) (ts10 t0 ++ [58])
    simpa [List.append_assoc] using hh
  rw [scanLoop_iterFrom_eq_filterMap desFlow (ipFlowsTag ++ natBytes ip ++ [58])
    (ipFlowsTag ++ natBytes ip ++ [58] ++ ts10 t0 ++ [58])
    (ipFlowsTag ++ natBytes ip ++ [58] ++ ts10 t1 ++ [58])
    (renderDB infos) hsorted hstart]
  unfold renderDB
  rw [List.filterMap_map]
  apply filterMap_congr_mem
  rintro ⟨i, v⟩ he
  obtain ⟨hts, hkind⟩ := hOK (i, v) he
  simp only [Function.comp_apply]
  cases i with
  | ipFlowsK ip' ts p pr d =>
    cases v with
    | flowV r =>
      by_cases hip : ip = ip'
      · subst hip
        obtain ⟨hs, he2, htag⟩ :=
          ipFlows_scan_conditions ip ts p pr d t0 t1 hts h0 h1
        simp only [List.append_assoc, List.singleton_append] at hs he2 htag ⊢
        simp only [hs, he2, htag, true_and, desFlow]
      · have htag' : (ipFlowsTag ++ natBytes ip ++ [58]).isPrefixOf
            (renderKey (.ipFlowsK ip' ts p pr d)) = false := by
          cases hb : (ipFlowsTag ++ natBytes ip ++ [58]).isPrefixOf
              (renderKey (.ipFlowsK ip' ts p pr d)) with
          | false => rfl
          | true => exact absurd ((ipFlows_tag_iff ip ip' ts p pr d).mp hb) hip
        have hip' : ¬ (ip' = ip) := fun hc => hip hc.symm
        split <;>
          first
            | (rename_i hcond; exact absurd hcond.2.1 (by rw [htag']; decide))
            | simp [hip']
    | protoV r => exact hkind.elim
    | portV r => exact hkind.elim
  | flowK ts2 ip2 p2 pr2 d2 =>
    have htagF : (ipFlowsTag ++ natBytes ip ++ [58]).isPrefixOf
        (renderKey (.flowK ts2 ip2 p2 pr2 d2)) = false := by
      have hbase := isPrefixOf_append_of_not ipFlowsTag flowTag (by decide) (by decide)
        (ts10 ts2 ++ [58] ++ natBytes ip2 ++ [58] ++ natBytes p2 ++ [58]
          ++ natBytes pr2 ++ [58] ++ natBytes d2)
      have hh := isPrefixOf_append_left_false ipFlowsTag (natBytes ip ++ [58]) _ hbase
      simpa [renderKey] using hh
    cases v <;> split <;>
      first
        | rfl
        | (rename_i hcond; exact absurd hcond.2.1 (by rw [htagF]; decide))
  | portFlowsK p2 ts2 ip2 pr2 d2 =>
    have htagF : (ipFlowsTag ++ natBytes ip ++ [58]).isPrefixOf
        (renderKey (.portFlowsK p2 ts2 ip2 pr2 d2)) = false := by
      have hbase := isPrefixOf_append_of_not ipFlowsTag portFlowsTag (by decide) (by decide)
        (natBytes p2 ++ [58] ++ ts10 ts2 ++ [58] ++ natBytes ip2 ++ [58]
          ++ natBytes pr2 ++ [58] ++ natBytes d2)
      have hh := isPrefixOf_append_left_false ipFlowsTag (natBytes ip ++ [58]) _ hbase
      simpa [renderKey] using hh
    cases v <;> split <;>
      first
        | rfl
        | (rename_i hcond; exact absurd hcond.2.1 (by rw [htagF]; decide))
  | protoK ts2 ip2 =>
    have htagF : (ipFlowsTag ++ natBytes ip ++ [58]).isPrefixOf
        (renderKey (.protoK ts2 ip2)) = false := by
      have hbase := isPrefixOf_append_of_not ipFlowsTag protocolTag (by decide) (by decide)
        (ts10 ts2 ++ [58] ++ natBytes ip2)
      have hh := isPrefixOf_append_left_false ipFlowsTag (natBytes ip ++ [58]) _ hbase
      simpa [renderKey] using hh
    cases v <;> split <;>
      first
        | rfl
        | (rename_i hcond; exact absurd hcond.2.1 (by rw [htagF]; decide))
  | ipProtoK ip2 ts2 =>
    have htagF : (ipFlowsTag ++ natBytes ip ++ [58]).isPrefixOf
        (renderKey (.ipProtoK ip2 ts2)) = false := by
      have hbase := isPrefixOf_append_of_not ipFlowsTag ipProtocolTag (by decide) (by decide)
        (natBytes ip2 ++ [58] ++ ts10 ts2)
      have hh := isPrefixOf_append_left_false ipFlowsTag (natBytes ip ++ [58]) _ hbase
      simpa [renderKey] using hh
    cases v <;> split <;>
      first
        | rfl
        | (rename_i hcond; exact absurd hcond.2.1 (by rw [htagF]; decide))
  | portStatsK ts2 p2 =>
    have htagF : (ipFlowsTag ++ natBytes ip ++ [58]).isPrefixOf
        (renderKey (.portStatsK ts2 p2)) = false := by
      have hbase := isPrefixOf_append_of_not ipFlowsTag portStatsTag (by decide) (by decide)
        (ts10 ts2 ++ [58] ++ natBytes p2)
      have hh := isPrefixOf_append_left_false ipFlowsTag (natBytes ip ++ [58]) _ hbase
      simpa [renderKey] using hh
    cases v <;> split <;>
      first
        | rfl
        | (rename_i hcond; exact absurd hcond.2.1 (by rw [htagF]; decide))

/-! ### Conditions of the `ip_protocol` range scan on rendered keys -/

theorem ipProto_tag_iff (ip ip' ts : Nat) :
    ((ipProtocolTag ++ natBytes ip ++ [58]).isPrefixOf
      (renderKey (.ipProtoK ip' ts)) = true) ↔ ip = ip' := by
  simp only [renderKey, List.append_assoc, List.singleton_append]
  rw [isPrefixOf_append_cancel]
  exact prefixOf_natBytes_colon ip ip' _

theorem ipProto_scan_conditions (ip ts t0 t1 : Nat)
    (hts : ts < TS_MOD) (h0 : t0 < TS_MOD) (h1 : t1 < TS_MOD) :
    (bytesLe (ipProtocolTag ++ natBytes ip ++ [58] ++ ts10 t0)
        (renderKey (.ipProtoK ip ts)) = true ↔ t0 ≤ ts)
    ∧ (bytesLe (renderKey (.ipProtoK ip ts))
        (ipProtocolTag ++ natBytes ip ++ [58] ++ ts10 t1) = true ↔ ts ≤ t1)
    ∧ ((ipProtocolTag ++ natBytes ip ++ [58]).isPrefixOf
        (renderKey (.ipProtoK ip ts)) = true) := by
  have hts' : ts < 10 ^ 10 := by simpa [TS_MOD] using hts
  have h0' : t0 < 10 ^ 10 := by simpa [TS_MOD] using h0
  have h1' : t1 < 10 ^ 10 := by simpa [TS_MOD] using h1
  refine ⟨?_, ?_, ?_⟩
  · simp only [renderKey, ipProtocolTag, ts10_eq _ hts, ts10_eq _ h0, List.cons_append,
      List.nil_append, List.append_assoc, List.singleton_append, bytesLe_cons_cancel]
    rw [bytesLe_append_cancel, bytesLe_cons_cancel]
    exact bytesLe_pad_iff 10 t0 ts h0' hts'
  · simp only [renderKey, ipProtocolTag, ts10_eq _ hts, ts10_eq _ h1, List.cons_append,
      List.nil_append, List.append_assoc, List.singleton_append, bytesLe_cons_cancel]
    rw [bytesLe_append_cancel, bytesLe_cons_cancel]
    exact bytesLe_pad_iff 10 ts t1 hts' h1'
  · exact (ipProto_tag_iff ip ip ts).mpr rfl

/-- Characterization of `get_protocol_stats_history` on a sorted well-formed
store: both range bounds are inclusive, because the start and end keys
`ip_protocol:{ip}:{ts10}` carry no trailing delimiter and so coincide with
the stored keys at those timestamps. -/
theorem protocol_history_characterization
    (infos : List (KeyInfo × DBVal)) (ip t0 t1 : Nat)
    (hOK : ∀ e ∈ infos, entryOK e)
    (hsorted : (renderDB infos).Pairwise (fun e e' => bytesLt e.1 e'.1 = true))
    (h0 : t0 < TS_MOD) (h1 : t1 < TS_MOD) :
    get_protocol_stats_history (renderDB infos) ip t0 t1
      = infos.filterMap (fun e =>
          match e with
          | (.ipProtoK ip' ts, .protoV r) =>
            if ip' = ip ∧ t0 ≤ ts ∧ ts ≤ t1 then some r else none
          | _ => none) := by
  unfold get_protocol_stats_history
  have hstart : (ipProtocolTag ++ natBytes ip ++ [58]).isPrefixOf
      (ipProtocolTag ++ natBytes ip ++ [58] ++ ts10 t0) = true := by
    have hh := isPrefixOf_self_append (ipProtocolTag ++ natBytes ip ++ [58]) (ts10 t0)
    simpa [List.append_assoc] using hh
  rw [scanLoop_iterFrom_eq_filterMap desProto (ipProtocolTag ++ natBytes ip ++ [58])
    (ipProtocolTag ++ natBytes ip ++ [58] ++ ts10 t0)
    (ipProtocolTag ++ natBytes ip ++ [58] ++ ts10 t1)
    (renderDB infos) hsorted hstart]
  unfold renderDB
  rw [List.filterMap_map]
  apply filterMap_congr_mem
  rintro ⟨i, v⟩ he
  obtain ⟨hts, hkind⟩ := hOK (i, v) he
  simp only [Function.comp_apply]
  cases i with
  | ipProtoK ip' ts =>
    cases v with
    | protoV r =>
      by_cases hip : ip = ip'
      · subst hip
        obtain ⟨hs, he2, htag⟩ := ipProto_scan_conditions ip ts t0 t1 hts h0 h1
        simp only [List.append_assoc, List.singleton_append] at hs he2 htag ⊢
        simp only [hs, he2, htag, true_and, desProto]
      · have htag' : (ipProtocolTag ++ natBytes ip ++ [58]).isPrefixOf
            (renderKey (.ipProtoK ip' ts)) = false := by
          cases hb : (ipProtocolTag ++ natBytes ip ++ [58]).isPrefixOf
              (renderKey (.ipProtoK ip' ts)) with
          | false => rfl
          | true => exact absurd ((ipProto_tag_iff ip ip' ts).mp hb) hip
        have hip' : ¬ (ip' = ip) := fun hc => hip hc.symm
        split <;>
          first
            | (rename_i hcond; exact absurd hcond.2.1 (by rw [htag']; decide))
            | simp [hip']
    | flowV r => exact hkind.elim
    | portV r => exact hkind.elim
  | flowK ts2 ip2 p2 pr2 d2 =>
    have htagF : (ipProtocolTag ++ natBytes ip ++ [58]).isPrefixOf
        (renderKey (.flowK ts2 ip2 p2 pr2 d2)) = false := by
      have hbase := isPrefixOf_append_of_not ipProtocolTag flowTag (by decide) (by decide)
        (ts10 ts2 ++ [58] ++ natBytes ip2 ++ [58] ++ natBytes p2 ++ [58]
          ++ natBytes pr2 ++ [58] ++ natBytes d2)
      have hh := isPrefixOf_append_left_false ipProtocolTag (natBytes ip ++ [58]) _ hbase
      simpa [renderKey] using hh
    cases v <;> split <;>
      first
        | rfl
        | (rename_i hcond; exact absurd hcond.2.1 (by rw [htagF]; decide))
  | ipFlowsK ip2 ts2 p2 pr2 d2 =>
    have htagF : (ipProtocolTag ++ natBytes ip ++ [58]).isPrefixOf
        (renderKey (.ipFlowsK ip2 ts2 p2 pr2 d2)) = false := by
      have hbase := isPrefixOf_append_of_not ipProtocolTag ipFlowsTag (by decide) (by decide)
        (natBytes ip2 ++ [58] ++ ts10 ts2 ++ [58] ++ natBytes p2 ++ [58]
          ++ natBytes pr2 ++ [58] ++ natBytes d2)
      have hh := isPrefixOf_append_left_false ipProtocolTag (natBytes ip ++ [58]) _ hbase
      simpa [renderKey] using hh
    cases v <;> split <;>
      first
        | rfl
        | (rename_i hcond; exact absurd hcond.2.1 (by rw [htagF]; decide))
  | portFlowsK p2 ts2 ip2 pr2 d2 =>
    have htagF : (ipProtocolTag ++ natBytes ip ++ [58]).isPrefixOf
        (renderKey (.portFlowsK p2 ts2 ip2 pr2 d2)) = false := by
      have hbase := isPrefixOf_append_of_not ipProtocolTag portFlowsTag (by decide) (by decide)
        (natBytes p2 ++ [58] ++ ts10 ts2 ++ [58] ++ natBytes ip2 ++ [58]
          ++ natBytes pr2 ++ [58] ++ natBytes d2)
      have hh := isPrefixOf_append_left_false ipProtocolTag (natBytes ip ++ [58]) _ hbase
      simpa [renderKey] using hh
    cases v <;> split <;>
      first
        | rfl
        | (rename_i hcond; exact absurd hcond.2.1 (by rw [htagF]; decide))
  | protoK ts2 ip2 =>
    have htagF : (ipProtocolTag ++ natBytes ip ++ [58]).isPrefixOf
        (renderKey (.protoK ts2 ip2)) = false := by
      have hbase := isPrefixOf_append_of_not ipProtocolTag protocolTag (by decide) (by decide)
        (ts10 ts2 ++ [58] ++ natBytes ip2)
      have hh := isPrefixOf_append_left_false ipProtocolTag (natBytes ip ++ [58]) _ hbase
      simpa [renderKey] using hh
    cases v <;> split <;>
      first
        | rfl
        | (rename_i hcond; exact absurd hcond.2.1 (by rw [htagF]; decide))
  | portStatsK ts2 p2 =>
    have htagF : (ipProtocolTag ++ natBytes ip ++ [58]).isPrefixOf
        (renderKey (.portStatsK ts2 p2)) = false := by
      have hbase := isPrefixOf_append_of_not ipProtocolTag portStatsTag (by decide) (by decide)
        (ts10 ts2 ++ [58] ++ natBytes p2)
      have hh := isPrefixOf_append_left_false ipProtocolTag (natBytes ip ++ [58]) _ hbase
      simpa [renderKey] using hh
    cases v <;> split <;>
      first
        | rfl
        | (rename_i hcond; exact absurd hcond.2.1 (by rw [htagF]; decide))

/-- Claim C10: a protocol record stored for the queried IP at a timestamp
exactly equal to the end of the range is included in the result of
`get_protocol_stats_history`: its key equals the query's end-range key
`ip_protocol:{ip}:{end_ts10}` and the scan stops only on strictly greater
keys, so this query's end boundary is inclusive rather than half-open. -/
theorem protocol_history_end_inclusive
    (infos : List (KeyInfo × DBVal)) (ip t0 t1 : Nat) (r : ProtocolRecord)
    (hOK : ∀ e ∈ infos, entryOK e)
    (hsorted : (renderDB infos).Pairwise (fun e e' => bytesLt e.1 e'.1 = true))
    (h0 : t0 < TS_MOD) (h1 : t1 < TS_MOD) (h01 : t0 ≤ t1)
    (hmem : (KeyInfo.ipProtoK ip t1, DBVal.protoV r) ∈ infos) :
    r ∈ get_protocol_stats_history (renderDB infos) ip t0 t1 := by
  rw [protocol_history_characterization infos ip t0 t1 hOK hsorted h0 h1]
  exact List.mem_filterMap.mpr
    ⟨(.ipProtoK ip t1, .protoV r), hmem, by simp [h01]⟩

/-- Witness for C10: a one-record store queried with the record's timestamp as
the end of the range contains the record in the query result. -/
theorem protocol_history_end_inclusive_witness :
    (⟨50, 1, ⟨0, 0, 0, 0, 0, 0⟩⟩ : ProtocolRecord) ∈
      get_protocol_stats_history
        (renderDB [(KeyInfo.ipProtoK 1 50,
          DBVal.protoV ⟨50, 1, ⟨0, 0, 0, 0, 0, 0⟩⟩)]) 1 40 50 := by
  apply protocol_history_end_inclusive
  · intro e he
    simp only [List.mem_singleton] at he
    subst he
    exact ⟨by decide, trivial⟩
  · simp [renderDB]
  · decide
  · decide
  · decide
  · simp

/-! ### What `cleanup_old_data` actually deletes -/

/-- The retention predicate the code actually implements: only the three
primary families are considered, and only timestamps strictly below the
cutoff are deleted (a key at the cutoff second extends the end key and so
compares greater). -/
def primaryBeforeCutoff (before : Nat) : KeyInfo → Bool
  | .flowK ts _ _ _ _ => decide (ts < before)
  | .protoK ts _ => decide (ts < before)
  | .portStatsK ts _ => decide (ts < before)
  | _ => false

theorem shouldDelete_renderKey (before : Nat) (i : KeyInfo)
    (hts : tsOfInfo i < TS_MOD) (hb : before < TS_MOD) :
    shouldDelete before (renderKey i) = primaryBeforeCutoff before i := by
  have hb' : before < 10 ^ 10 := by simpa [TS_MOD] using hb
  cases i with
  | flowK ts ip p pr d =>
    have hts' : ts < 10 ^ 10 := by simpa [TS_MOD, tsOfInfo] using hts
    have htsm : ts < TS_MOD := by simpa [TS_MOD] using hts'
    have htag : flowTag.isPrefixOf (renderKey (.flowK ts ip p pr d)) = true := by
      simp only [renderKey]
      exact isPrefixOf_self_append _ _
    have hp2 : protocolTag.isPrefixOf (renderKey (.flowK ts ip p pr d)) = false := by
      have hbase := isPrefixOf_append_of_not protocolTag flowTag (by decide) (by decide)
        (ts10 ts ++ [58] ++ natBytes ip ++ [58] ++ natBytes p ++ [58]
          ++ natBytes pr ++ [58] ++ natBytes d)
      simpa [renderKey] using hbase
    have hp3 : portStatsTag.isPrefixOf (renderKey (.flowK ts ip p pr d)) = false := by
      have hbase := isPrefixOf_append_of_not portStatsTag flowTag (by decide) (by decide)
        (ts10 ts ++ [58] ++ natBytes ip ++ [58] ++ natBytes p ++ [58]
          ++ natBytes pr ++ [58] ++ natBytes d)
      simpa [renderKey] using hbase
    have hle : bytesLe (renderKey (.flowK ts ip p pr d))
        (flowTag ++ ts10 before ++ [58]) = true ↔ ts < before := by
      simp only [renderKey, flowTag, ts10_eq _ htsm, ts10_eq _ hb, List.cons_append,
        List.nil_append, List.append_assoc, List.singleton_append, bytesLe_cons_cancel]
      exact bytesLe_pad_colon_end 10 ts before _ hts' hb' (by simp)
    by_cases hc : ts < before
    · simp only [shouldDelete]
      rw [htag, hle.mpr hc]
      simp [primaryBeforeCutoff, hc]
    · have hle' : bytesLe (renderKey (.flowK ts ip p pr d))
          (flowTag ++ ts10 before ++ [58]) = false := by
        cases hbb : bytesLe (renderKey (.flowK ts ip p pr d))
            (flowTag ++ ts10 before ++ [58]) with
        | true => exact absurd (hle.mp hbb) hc
        | false => rfl
      simp only [shouldDelete]
      rw [hle', hp2, hp3]
      simp [primaryBeforeCutoff, hc]
  | protoK ts ip =>
    have hts' : ts < 10 ^ 10 := by simpa [TS_MOD, tsOfInfo] using hts
    have htsm : ts < TS_MOD := by simpa [TS_MOD] using hts'
    have htag : protocolTag.isPrefixOf (renderKey (.protoK ts ip)) = true := by
      simp only [renderKey]
      exact isPrefixOf_self_append _ _
    have hp1 : flowTag.isPrefixOf (renderKey (.protoK ts ip)) = false := by
      have hbase := isPrefixOf_append_of_not flowTag protocolTag (by decide) (by decide)
        (ts10 ts ++ [58] ++ natBytes ip)
      simpa [renderKey] using hbase
    have hp3 : portStatsTag.isPrefixOf (renderKey (.protoK ts ip)) = false := by
      have hbase := isPrefixOf_append_of_not portStatsTag protocolTag (by decide) (by decide)
        (ts10 ts ++ [58] ++ natBytes ip)
      simpa [renderKey] using hbase
    have hle : bytesLe (renderKey (.protoK ts ip))
        (protocolTag ++ ts10 before ++ [58]) = true ↔ ts < before := by
      simp only [renderKey, protocolTag, ts10_eq _ htsm, ts10_eq _ hb, List.cons_append,
        List.nil_append, List.append_assoc, List.singleton_append, bytesLe_cons_cancel]
      exact bytesLe_pad_colon_end 10 ts before _ hts' hb' (natBytes_ne_nil ip)
    by_cases hc : ts < before
    · simp only [shouldDelete]
      rw [hp1, htag, hle.mpr hc]
      simp [primaryBeforeCutoff, hc]
    · have hle' : bytesLe (renderKey (.protoK ts ip))
          (protocolTag ++ ts10 before ++ [58]) = false := by
        cases hbb : bytesLe (renderKey (.protoK ts ip))
            (protocolTag ++ ts10 before ++ [58]) with
        | true => exact absurd (hle.mp hbb) hc
        | false => rfl
      simp only [shouldDelete]
      rw [hp1, hle', hp3]
      simp [primaryBeforeCutoff, hc]
  | portStatsK ts p =>
    have hts' : ts < 10 ^ 10 := by simpa [TS_MOD, tsOfInfo] using hts
    have htsm : ts < TS_MOD := by simpa [TS_MOD] using hts'
    have htag : portStatsTag.isPrefixOf (renderKey (.portStatsK ts p)) = true := by
      simp only [renderKey]
      exact isPrefixOf_self_append _ _
    have hp1 : flowTag.isPrefixOf (renderKey (.portStatsK ts p)) = false := by
      have hbase := isPrefixOf_append_of_not flowTag portStatsTag (by decide) (by decide)
        (ts10 ts ++ [58] ++ natBytes p)
      simpa [renderKey] using hbase
    have hp2 : protocolTag.isPrefixOf (renderKey (.portStatsK ts p)) = false := by
      have hbase := isPrefixOf_append_of_not protocolTag portStatsTag (by decide) (by decide)
        (ts10 ts ++ [58] ++ natBytes p)
      simpa [renderKey] using hbase
    have hle : bytesLe (renderKey (.portStatsK ts p))
        (portStatsTag ++ ts10 before ++ [58]) = true ↔ ts < before := by
      simp only [renderKey, portStatsTag, ts10_eq _ htsm, ts10_eq _ hb, List.cons_append,
        List.nil_append, List.append_assoc, List.singleton_append, bytesLe_cons_cancel]
      exact bytesLe_pad_colon_end 10 ts before _ hts' hb' (natBytes_ne_nil p)
    by_cases hc : ts < before
    · simp only [shouldDelete]
      rw [hp1, hp2, htag, hle.mpr hc]
      simp [primaryBeforeCutoff, hc]
    · have hle' : bytesLe (renderKey (.portStatsK ts p))
          (portStatsTag ++ ts10 before ++ [58]) = false := by
        cases hbb : bytesLe (renderKey (.portStatsK ts p))
            (portStatsTag ++ ts10 before ++ [58]) with
        | true => exact absurd (hle.mp hbb) hc
        | false => rfl
      simp only [shouldDelete]
      rw [hp1, hp2, hle']
      simp [primaryBeforeCutoff, hc]
  | ipFlowsK ip ts p pr d =>
    have hp1 : flowTag.isPrefixOf (renderKey (.ipFlowsK ip ts p pr d)) = false := by
      have hbase := isPrefixOf_append_of_not flowTag ipFlowsTag (by decide) (by decide)
        (natBytes ip ++ [58] ++ ts10 ts ++ [58] ++ natBytes p ++ [58]
          ++ natBytes pr ++ [58] ++ natBytes d)
      simpa [renderKey] using hbase
    have hp2 : protocolTag.isPrefixOf (renderKey (.ipFlowsK ip ts p pr d)) = false := by
      have hbase := isPrefixOf_append_of_not protocolTag ipFlowsTag (by decide) (by decide)
        (natBytes ip ++ [58] ++ ts10 ts ++ [58] ++ natBytes p ++ [58]
          ++ natBytes pr ++ [58] ++ natBytes d)
      simpa [renderKey] using hbase
    have hp3 : portStatsTag.isPrefixOf (renderKey (.ipFlowsK ip ts p pr d)) = false := by
      have hbase := isPrefixOf_append_of_not portStatsTag ipFlowsTag (by decide) (by decide)
        (natBytes ip ++ [58] ++ ts10 ts ++ [58] ++ natBytes p ++ [58]
          ++ natBytes pr ++ [58] ++ natBytes d)
      simpa [renderKey] using hbase
    simp only [shouldDelete]
    rw [hp1, hp2, hp3]
    simp [primaryBeforeCutoff]
  | portFlowsK p ts ip pr d =>
    have hp1 : flowTag.isPrefixOf (renderKey (.portFlowsK p ts ip pr d)) = false := by
      have hbase := isPrefixOf_append_of_not flowTag portFlowsTag (by decide) (by decide)
        (natBytes p ++ [58] ++ ts10 ts ++ [58] ++ natBytes ip ++ [58]
          ++ natBytes pr ++ [58] ++ natBytes d)
      simpa [renderKey] using hbase
    have hp2 : protocolTag.isPrefixOf (renderKey (.portFlowsK p ts ip pr d)) = false := by
      have hbase := isPrefixOf_append_of_not protocolTag portFlowsTag (by decide) (by decide)
        (natBytes p ++ [58] ++ ts10 ts ++ [58] ++ natBytes ip ++ [58]
          ++ natBytes pr ++ [58] ++ natBytes d)
      simpa [renderKey] using hbase
    have hp3 : portStatsTag.isPrefixOf (renderKey (.portFlowsK p ts ip pr d)) = false := by
      have hbase := isPrefixOf_append_of_not portStatsTag portFlowsTag (by decide) (by decide)
        (natBytes p ++ [58] ++ ts10 ts ++ [58] ++ natBytes ip ++ [58]
          ++ natBytes pr ++ [58] ++ natBytes d)
      simpa [renderKey] using hbase
    simp only [shouldDelete]
    rw [hp1, hp2, hp3]
    simp [primaryBeforeCutoff]
  | ipProtoK ip ts =>
    have hp1 : flowTag.isPrefixOf (renderKey (.ipProtoK ip ts)) = false := by
      have hbase := isPrefixOf_append_of_not flowTag ipProtocolTag (by decide) (by decide)
        (natBytes ip ++ [58] ++ ts10 ts)
      simpa [renderKey] using hbase
    have hp2 : protocolTag.isPrefixOf (renderKey (.ipProtoK ip ts)) = false := by
      have hbase := isPrefixOf_append_of_not protocolTag ipProtocolTag (by decide) (by decide)
        (natBytes ip ++ [58] ++ ts10 ts)
      simpa [renderKey] using hbase
    have hp3 : portStatsTag.isPrefixOf (renderKey (.ipProtoK ip ts)) = false := by
      have hbase := isPrefixOf_append_of_not portStatsTag ipProtocolTag (by decide) (by decide)
        (natBytes ip ++ [58] ++ ts10 ts)
      simpa [renderKey] using hbase
    simp only [shouldDelete]
    rw [hp1, hp2, hp3]
    simp [primaryBeforeCutoff]

/-- Counterexample to claim C3 as stated: with cutoff second 100, a stored
`ip_flows:` index record of timestamp 50 (≤ the cutoff) and a primary `flow:`
record of timestamp exactly 100 (= the cutoff) are both left in the store and
the returned count is 0, although the claim requires both to be deleted and
counted. -/
theorem cleanup_counterexample_secondary_and_boundary :
    cleanup_old_data
      (renderDB [(KeyInfo.ipFlowsK 1 50 2 6 0,
          DBVal.flowV ⟨50, ⟨1, 2, 6, 0⟩, ⟨0, 0, 0, 0, 6, 0, 1⟩⟩),
        (KeyInfo.flowK 100 1 2 6 0,
          DBVal.flowV ⟨100, ⟨1, 2, 6, 0⟩, ⟨0, 0, 0, 0, 6, 0, 1⟩⟩)]) 100
      = (renderDB [(KeyInfo.ipFlowsK 1 50 2 6 0,
          DBVal.flowV ⟨50, ⟨1, 2, 6, 0⟩, ⟨0, 0, 0, 0, 6, 0, 1⟩⟩),
        (KeyInfo.flowK 100 1 2 6 0,
          DBVal.flowV ⟨100, ⟨1, 2, 6, 0⟩, ⟨0, 0, 0, 0, 6, 0, 1⟩⟩)], 0)
    ∧ tsOfInfo (KeyInfo.ipFlowsK 1 50 2 6 0) ≤ 100
    ∧ tsOfInfo (KeyInfo.flowK 100 1 2 6 0) ≤ 100 := by
  decide

/-- Claim C3 (amended): `cleanup_old_data` deletes exactly the records of the
three primary key families `flow:`, `protocol:`, `port_stats:` whose
timestamp is strictly below the cutoff second, returns their count, and
leaves every `ip_flows:`, `port_flows:`, `ip_protocol:` index record and
every record with timestamp at or after the cutoff untouched. -/
theorem cleanup_deletes_primary_strictly_before
    (infos : List (KeyInfo × DBVal)) (before : Nat)
    (hOK : ∀ e ∈ infos, tsOfInfo e.1 < TS_MOD) (hb : before < TS_MOD) :
    cleanup_old_data (renderDB infos) before
      = (renderDB (infos.filter (fun e => !primaryBeforeCutoff before e.1)),
          infos.countP (fun e => primaryBeforeCutoff before e.1)) := by
  unfold cleanup_old_data renderDB
  rw [List.filter_map, List.countP_map]
  congr 1
  · congr 1
    apply List.filter_congr
    intro e he
    simp only [Function.comp_apply]
    rw [shouldDelete_renderKey before e.1 (hOK e he) hb]
  · apply List.countP_congr
    intro e he
    simp only [Function.comp_apply]
    rw [shouldDelete_renderKey before e.1 (hOK e he) hb]

/-- Witness for the amended C3: a primary `flow:` record of timestamp 50 is
deleted by a cutoff of 100 and counted once, while an `ip_protocol:` index
record survives. -/
theorem cleanup_deletes_primary_witness :
    cleanup_old_data
      (renderDB [(KeyInfo.flowK 50 1 2 6 0,
          DBVal.flowV ⟨50, ⟨1, 2, 6, 0⟩, ⟨0, 0, 0, 0, 6, 0, 1⟩⟩),
        (KeyInfo.ipProtoK 1 50, DBVal.protoV ⟨50, 1, ⟨1, 0, 9, 0, 1, 0⟩⟩)]) 100
      = (renderDB ([(KeyInfo.flowK 50 1 2 6 0,
          DBVal.flowV ⟨50, ⟨1, 2, 6, 0⟩, ⟨0, 0, 0, 0, 6, 0, 1⟩⟩),
        (KeyInfo.ipProtoK 1 50, DBVal.protoV ⟨50, 1, ⟨1, 0, 9, 0, 1, 0⟩⟩)].filter
            (fun e => !primaryBeforeCutoff 100 e.1)),
        [(KeyInfo.flowK 50 1 2 6 0,
          DBVal.flowV ⟨50, ⟨1, 2, 6, 0⟩, ⟨0, 0, 0, 0, 6, 0, 1⟩⟩),
        (KeyInfo.ipProtoK 1 50, DBVal.protoV ⟨50, 1, ⟨1, 0, 9, 0, 1, 0⟩⟩)].countP
            (fun e => primaryBeforeCutoff 100 e.1)) :=
  cleanup_deletes_primary_strictly_before
    [(KeyInfo.flowK 50 1 2 6 0,
        DBVal.flowV ⟨50, ⟨1, 2, 6, 0⟩, ⟨0, 0, 0, 0, 6, 0, 1⟩⟩),
      (KeyInfo.ipProtoK 1 50, DBVal.protoV ⟨50, 1, ⟨1, 0, 9, 0, 1, 0⟩⟩)] 100
    (by decide) (by decide)

/-! ### The shape of the write batch -/

/-- The key dimension fields of a key info agree with the dimensions recorded
inside the stored value. -/
def infoMatchesVal : KeyInfo → DBVal → Prop
  | .flowK ts ip port proto dir, .flowV r =>
      r.timestamp = ts ∧ r.flow_key = ⟨ip, port, proto, dir⟩
  | .ipFlowsK ip ts port proto dir, .flowV r =>
      r.timestamp = ts ∧ r.flow_key = ⟨ip, port, proto, dir⟩
  | .portFlowsK port ts ip proto dir, .flowV r =>
      r.timestamp = ts ∧ r.flow_key = ⟨ip, port, proto, dir⟩
  | .protoK ts ip, .protoV r => r.timestamp = ts ∧ r.ip = ip
  | .ipProtoK ip ts, .protoV r => r.timestamp = ts ∧ r.ip = ip
  | .portStatsK ts port, .portV r => r.timestamp = ts ∧ r.port = port
  | _, _ => False

/-- Claim C5: every key written by `store_traffic_snapshot` is one of the six
formats `flow:{ts10}:{ip}:{port}:{proto}:{dir}`,
`ip_flows:{ip}:{ts10}:{port}:{proto}:{dir}`,
`port_flows:{port}:{ts10}:{ip}:{proto}:{dir}`, `protocol:{ts10}:{ip}`,
`ip_protocol:{ip}:{ts10}`, `port_stats:{ts10}:{port}`, with the snapshot
timestamp and the record's own dimension values as fields; `{ts10}` is the
ten-digit zero-padded decimal rendering of the snapshot's Unix second, and
every other field is the plain decimal rendering of its value. -/
theorem store_keys_match_six_formats :
    ∀ (ts : Nat) (flows : List (FlowKey × EnhancedTrafficStats))
      (protocols : List (Nat × ProtocolStats)) (ports : List (Nat × PortStats)),
      ts < TS_MOD →
      (∀ k v, (k, v) ∈ storeBatch ts flows protocols ports →
        ∃ i : KeyInfo, k = renderKey i ∧ tsOfInfo i = ts ∧ infoMatchesVal i v)
      ∧ ((ts10 ts).length = 10 ∧ (∀ b ∈ ts10 ts, 48 ≤ b ∧ b < 58)
          ∧ decodeBytes (ts10 ts) = ts)
      ∧ (∀ n : Nat, decodeBytes (natBytes n) = n ∧ ∀ b ∈ natBytes n, 48 ≤ b ∧ b < 58) := by
  intro ts flows protocols ports hts
  have hts' : ts < 10 ^ 10 := by simpa [TS_MOD] using hts
  refine ⟨?_, ?_, ?_⟩
  · intro k v hmem
    simp only [storeBatch, List.mem_append, List.mem_flatMap, List.mem_map] at hmem
    rcases hmem with (⟨e, he, hin⟩ | ⟨e, he, hin⟩) | ⟨e, he, heq⟩
    · simp only [flowWrites, List.mem_cons, List.not_mem_nil, or_false] at hin
      rcases hin with h | h | h
      · obtain ⟨hk, hv⟩ := Prod.mk.injEq _ _ _ _ ▸ h
        exact ⟨.flowK ts e.1.ip e.1.port e.1.protocol e.1.direction, hk, rfl,
          by rw [hv]; exact ⟨rfl, rfl⟩⟩
      · obtain ⟨hk, hv⟩ := Prod.mk.injEq _ _ _ _ ▸ h
        exact ⟨.ipFlowsK e.1.ip ts e.1.port e.1.protocol e.1.direction, hk, rfl,
          by rw [hv]; exact ⟨rfl, rfl⟩⟩
      · obtain ⟨hk, hv⟩ := Prod.mk.injEq _ _ _ _ ▸ h
        exact ⟨.portFlowsK e.1.port ts e.1.ip e.1.protocol e.1.direction, hk, rfl,
          by rw [hv]; exact ⟨rfl, rfl⟩⟩
    · simp only [protoWrites, List.mem_cons, List.not_mem_nil, or_false] at hin
      rcases hin with h | h
      · obtain ⟨hk, hv⟩ := Prod.mk.injEq _ _ _ _ ▸ h
        exact ⟨.protoK ts e.1, hk, rfl, by rw [hv]; exact ⟨rfl, rfl⟩⟩
      · obtain ⟨hk, hv⟩ := Prod.mk.injEq _ _ _ _ ▸ h
        exact ⟨.ipProtoK e.1 ts, hk, rfl, by rw [hv]; exact ⟨rfl, rfl⟩⟩
    · simp only [portWrite] at heq
      obtain ⟨hk, hv⟩ := Prod.mk.injEq _ _ _ _ ▸ heq.symm
      exact ⟨.portStatsK ts e.1, hk, rfl, by rw [hv]; exact ⟨rfl, rfl⟩⟩
  · rw [ts10_eq _ hts]
    exact ⟨padDigits_length 10 ts, padDigits_digit 10 ts hts',
      decodeBytes_padDigits 10 ts hts'⟩
  · intro n
    exact ⟨decodeBytes_natBytes n, natBytes_digit n⟩

/-- Witness for `ip_flows_history_exact_range`: a store holding one
`ip_flows` record for IP 1 at second 45 answers the query `[40, 50)` with
exactly that record. -/
theorem ip_flows_history_witness :
    get_ip_flows_history
        (renderDB [(.ipFlowsK 1 45 443 6 0,
          .flowV ⟨45, ⟨1, 443, 6, 0⟩, ⟨1, 100, 0, 0, 6, 45, 1⟩⟩)]) 1 40 50
      = [⟨45, ⟨1, 443, 6, 0⟩, ⟨1, 100, 0, 0, 6, 45, 1⟩⟩] := by
  have h := ip_flows_history_exact_range
    [(.ipFlowsK 1 45 443 6 0,
      .flowV ⟨45, ⟨1, 443, 6, 0⟩, ⟨1, 100, 0, 0, 6, 45, 1⟩⟩)] 1 40 50
    (by
      intro e he
      have he' := List.mem_singleton.mp he
      subst he'
      exact ⟨by decide, trivial⟩)
    (by simp [renderDB])
    (by decide) (by decide)
  rw [h]
  rfl

/-- Witness for `store_keys_match_six_formats`: at a concrete timestamp the
hypothesis holds and the rendering facts evaluate. -/
theorem store_keys_match_six_formats_witness :
    1700000000 < TS_MOD ∧ (ts10 1700000000).length = 10
      ∧ decodeBytes (ts10 1700000000) = 1700000000 :=
  ⟨by decide,
    (store_keys_match_six_formats 1700000000 [] [] [] (by decide)).2.1.1,
    (store_keys_match_six_formats 1700000000 [] [] [] (by decide)).2.1.2.2⟩

/-! ### Write amplification (C7) -/

/-- Within one flow iteration, the count of writes holding a given flow value:
3 when it is this record's value, 0 otherwise. -/
theorem countP_flowWrites (ts : Nat) (f e : FlowKey × EnhancedTrafficStats) :
    (flowWrites ts f).countP
        (fun w => w.2 == DBVal.flowV ⟨ts, e.1, e.2⟩)
      = if f.1 = e.1 ∧ f.2 = e.2 then 3 else 0 := by
  by_cases h : f.1 = e.1 ∧ f.2 = e.2
  · obtain ⟨h1, h2⟩ := h
    rw [if_pos ⟨h1, h2⟩]
    simp [flowWrites, List.countP_cons, h1, h2]
  · rw [if_neg h]
    have hne : DBVal.flowV ⟨ts, f.1, f.2⟩ ≠ DBVal.flowV ⟨ts, e.1, e.2⟩ := by
      intro hEq
      simp only [DBVal.flowV.injEq, FlowRecord.mk.injEq] at hEq
      exact h ⟨hEq.2.1, hEq.2.2⟩
    simp [flowWrites, List.countP_cons, hne]

/-- A flow value whose key is absent from the flow list never appears in the
flow section of the batch. -/
theorem countP_flow_section_zero (ts : Nat)
    (flows : List (FlowKey × EnhancedTrafficStats))
    (e : FlowKey × EnhancedTrafficStats)
    (h : e.1 ∉ flows.map Prod.fst) :
    (flows.flatMap (flowWrites ts)).countP
        (fun w => w.2 == DBVal.flowV ⟨ts, e.1, e.2⟩) = 0 := by
  induction flows with
  | nil => rfl
  | cons f rest ih =>
    simp only [List.map_cons, List.mem_cons, not_or] at h
    rw [List.flatMap_cons, List.countP_append, countP_flowWrites,
      if_neg (fun hc => h.1 (hc.1.symm)), ih h.2]

/-- Each flow record's value occurs exactly three times in the flow section,
when flow keys are pairwise distinct. -/
theorem countP_flow_section (ts : Nat)
    (flows : List (FlowKey × EnhancedTrafficStats))
    (hf : (flows.map Prod.fst).Nodup)
    (e : FlowKey × EnhancedTrafficStats) (he : e ∈ flows) :
    (flows.flatMap (flowWrites ts)).countP
        (fun w => w.2 == DBVal.flowV ⟨ts, e.1, e.2⟩) = 3 := by
  induction flows with
  | nil => cases he
  | cons f rest ih =>
    simp only [List.map_cons, List.nodup_cons] at hf
    rw [List.flatMap_cons, List.countP_append]
    rcases List.mem_cons.mp he with rfl | hrest
    · rw [countP_flowWrites, if_pos ⟨rfl, rfl⟩,
        countP_flow_section_zero ts rest e hf.1]
    · have hne : f.1 ≠ e.1 := by
        intro hc
        exact hf.1 (hc ▸ List.mem_map_of_mem Prod.fst hrest)
      rw [countP_flowWrites, if_neg (fun hc => hne hc.1), ih hf.2 hrest]

/-- Within one protocol iteration, the count of writes holding a given
protocol value: 2 when it is this record's value, 0 otherwise. -/
theorem countP_protoWrites (ts : Nat) (f e : Nat × ProtocolStats) :
    (protoWrites ts f).countP
        (fun w => w.2 == DBVal.protoV ⟨ts, e.1, e.2⟩)
      = if f.1 = e.1 ∧ f.2 = e.2 then 2 else 0 := by
  by_cases h : f.1 = e.1 ∧ f.2 = e.2
  · obtain ⟨h1, h2⟩ := h
    rw [if_pos ⟨h1, h2⟩]
    simp [protoWrites, List.countP_cons, h1, h2]
  · rw [if_neg h]
    have hne : DBVal.protoV ⟨ts, f.1, f.2⟩ ≠ DBVal.protoV ⟨ts, e.1, e.2⟩ := by
      intro hEq
      simp only [DBVal.protoV.injEq, ProtocolRecord.mk.injEq] at hEq
      exact h ⟨hEq.2.1, hEq.2.2⟩
    simp [protoWrites, List.countP_cons, hne]

/-- A protocol value whose IP is absent from the protocol list never appears
in the protocol section of the batch. -/
theorem countP_proto_section_zero (ts : Nat)
    (protocols : List (Nat × ProtocolStats)) (e : Nat × ProtocolStats)
    (h : e.1 ∉ protocols.map Prod.fst) :
    (protocols.flatMap (protoWrites ts)).countP
        (fun w => w.2 == DBVal.protoV ⟨ts, e.1, e.2⟩) = 0 := by
  induction protocols with
  | nil => rfl
  | cons f rest ih =>
    simp only [List.map_cons, List.mem_cons, not_or] at h
    rw [List.flatMap_cons, List.countP_append, countP_protoWrites,
      if_neg (fun hc => h.1 (hc.1.symm)), ih h.2]

/-- Each protocol record's value occurs exactly twice in the protocol
section, when the IPs are pairwise distinct. -/
theorem countP_proto_section (ts : Nat)
    (protocols : List (Nat × ProtocolStats))
    (hp : (protocols.map Prod.fst).Nodup)
    (e : Nat × ProtocolStats) (he : e ∈ protocols) :
    (protocols.flatMap (protoWrites ts)).countP
        (fun w => w.2 == DBVal.protoV ⟨ts, e.1, e.2⟩) = 2 := by
  induction protocols with
  | nil => cases he
  | cons f rest ih =>
    simp only [List.map_cons, List.nodup_cons] at hp
    rw [List.flatMap_cons, List.countP_append]
    rcases List.mem_cons.mp he with rfl | hrest
    · rw [countP_protoWrites, if_pos ⟨rfl, rfl⟩,
        countP_proto_section_zero ts rest e hp.1]
    · have hne : f.1 ≠ e.1 := by
        intro hc
        exact hp.1 (hc ▸ List.mem_map_of_mem Prod.fst hrest)
      rw [countP_protoWrites, if_neg (fun hc => hne hc.1), ih hp.2 hrest]

/-- Each port record's value occurs exactly once in the port section, when
the ports are pairwise distinct. -/
theorem countP_port_section (ts : Nat) (ports : List (Nat × PortStats))
    (hq : (ports.map Prod.fst).Nodup)
    (e : Nat × PortStats) (he : e ∈ ports) :
    (ports.map (portWrite ts)).countP
        (fun w => w.2 == DBVal.portV ⟨ts, e.1, e.2⟩) = 1 := by
  induction ports with
  | nil => cases he
  | cons f rest ih =>
    simp only [List.map_cons, List.nodup_cons] at hq
    rw [List.map_cons, List.countP_cons]
    rcases List.mem_cons.mp he with rfl | hrest
    · have hzero : (rest.map (portWrite ts)).countP
          (fun w => w.2 == DBVal.portV ⟨ts, e.1, e.2⟩) = 0 := by
        refine List.countP_eq_zero.mpr ?_
        intro w hw
        obtain ⟨g, hg, hgw⟩ := List.mem_map.mp hw
        subst hgw
        have hne : g.1 ≠ e.1 := by
          intro hc
          exact hq.1 (hc ▸ List.mem_map_of_mem Prod.fst hg)
        simp [portWrite, hne]
      simp [hzero, portWrite]
    · have hne : f.1 ≠ e.1 := by
        intro hc
        exact hq.1 (hc ▸ List.mem_map_of_mem Prod.fst hrest)
      rw [ih hq.2 hrest]
      simp [portWrite, hne]

/-- The protocol section of the batch holds no flow values. -/
theorem no_flowV_in_proto_section (ts : Nat)
    (protocols : List (Nat × ProtocolStats)) (r : FlowRecord) :
    (protocols.flatMap (protoWrites ts)).countP
        (fun w => w.2 == DBVal.flowV r) = 0 := by
  refine List.countP_eq_zero.mpr ?_
  intro w hw
  simp only [List.mem_flatMap, protoWrites, List.mem_cons,
    List.not_mem_nil, or_false] at hw
  obtain ⟨g, _, h | h⟩ := hw <;> subst h <;> simp

/-- The port section of the batch holds no flow values. -/
theorem no_flowV_in_port_section (ts : Nat)
    (ports : List (Nat × PortStats)) (r : FlowRecord) :
    (ports.map (portWrite ts)).countP
        (fun w => w.2 == DBVal.flowV r) = 0 := by
  refine List.countP_eq_zero.mpr ?_
  intro w hw
  obtain ⟨g, _, hgw⟩ := List.mem_map.mp hw
  subst hgw
  simp [portWrite]

/-- The flow section of the batch holds no protocol values. -/
theorem no_protoV_in_flow_section (ts : Nat)
    (flows : List (FlowKey × EnhancedTrafficStats)) (r : ProtocolRecord) :
    (flows.flatMap (flowWrites ts)).countP
        (fun w => w.2 == DBVal.protoV r) = 0 := by
  refine List.countP_eq_zero.mpr ?_
  intro w hw
  simp only [List.mem_flatMap, flowWrites, List.mem_cons,
    List.not_mem_nil, or_false] at hw
  obtain ⟨g, _, h | h | h⟩ := hw <;> subst h <;> simp

/-- The port section of the batch holds no protocol values. -/
theorem no_protoV_in_port_section (ts : Nat)
    (ports : List (Nat × PortStats)) (r : ProtocolRecord) :
    (ports.map (portWrite ts)).countP
        (fun w => w.2 == DBVal.protoV r) = 0 := by
  refine List.countP_eq_zero.mpr ?_
  intro w hw
  obtain ⟨g, _, hgw⟩ := List.mem_map.mp hw
  subst hgw
  simp [portWrite]

/-- The flow section of the batch holds no port values. -/
theorem no_portV_in_flow_section (ts : Nat)
    (flows : List (FlowKey × EnhancedTrafficStats)) (r : PortRecord) :
    (flows.flatMap (flowWrites ts)).countP
        (fun w => w.2 == DBVal.portV r) = 0 := by
  refine List.countP_eq_zero.mpr ?_
  intro w hw
  simp only [List.mem_flatMap, flowWrites, List.mem_cons,
    List.not_mem_nil, or_false] at hw
  obtain ⟨g, _, h | h | h⟩ := hw <;> subst h <;> simp

/-- The protocol section of the batch holds no port values. -/
theorem no_portV_in_proto_section (ts : Nat)
    (protocols : List (Nat × ProtocolStats)) (r : PortRecord) :
    (protocols.flatMap (protoWrites ts)).countP
        (fun w => w.2 == DBVal.portV r) = 0 := by
  refine List.countP_eq_zero.mpr ?_
  intro w hw
  simp only [List.mem_flatMap, protoWrites, List.mem_cons,
    List.not_mem_nil, or_false] at hw
  obtain ⟨g, _, h | h⟩ := hw <;> subst h <;> simp

/-- Length of a flatMap whose sections all have the same length. -/
theorem length_flatMap_const {α β : Type} (f : α → List β) (c : Nat)
    (h : ∀ a, (f a).length = c) (l : List α) :
    (l.flatMap f).length = c * l.length := by
  induction l with
  | nil => simp
  | cons a t ih =>
    rw [List.flatMap_cons, List.length_append, h a, ih, List.length_cons,
      Nat.mul_succ, Nat.add_comm]

/-- Claim C7: in each persisted snapshot every flow record is written exactly
three times (under its flow:, ip_flows: and port_flows: keys, all with the
same serialized value), every protocol record exactly twice (protocol: and
ip_protocol:), every port record exactly once (port_stats:); the batch has
exactly 3f+2p+q writes, and the snapshot is applied to the store as that
single batch. -/
theorem store_write_amplification
    (ts : Nat) (flows : List (FlowKey × EnhancedTrafficStats))
    (protocols : List (Nat × ProtocolStats)) (ports : List (Nat × PortStats))
    (hf : (flows.map Prod.fst).Nodup)
    (hp : (protocols.map Prod.fst).Nodup)
    (hq : (ports.map Prod.fst).Nodup) :
    (∀ e ∈ flows,
        (storeBatch ts flows protocols ports).countP
            (fun w => w.2 == DBVal.flowV ⟨ts, e.1, e.2⟩) = 3
        ∧ (renderKey (.flowK ts e.1.ip e.1.port e.1.protocol e.1.direction),
            DBVal.flowV ⟨ts, e.1, e.2⟩) ∈ storeBatch ts flows protocols ports
        ∧ (renderKey (.ipFlowsK e.1.ip ts e.1.port e.1.protocol e.1.direction),
            DBVal.flowV ⟨ts, e.1, e.2⟩) ∈ storeBatch ts flows protocols ports
        ∧ (renderKey (.portFlowsK e.1.port ts e.1.ip e.1.protocol e.1.direction),
            DBVal.flowV ⟨ts, e.1, e.2⟩) ∈ storeBatch ts flows protocols ports)
    ∧ (∀ e ∈ protocols,
        (storeBatch ts flows protocols ports).countP
            (fun w => w.2 == DBVal.protoV ⟨ts, e.1, e.2⟩) = 2
        ∧ (renderKey (.protoK ts e.1), DBVal.protoV ⟨ts, e.1, e.2⟩)
            ∈ storeBatch ts flows protocols ports
        ∧ (renderKey (.ipProtoK e.1 ts), DBVal.protoV ⟨ts, e.1, e.2⟩)
            ∈ storeBatch ts flows protocols ports)
    ∧ (∀ e ∈ ports,
        (storeBatch ts flows protocols ports).countP
            (fun w => w.2 == DBVal.portV ⟨ts, e.1, e.2⟩) = 1
        ∧ (renderKey (.portStatsK ts e.1), DBVal.portV ⟨ts, e.1, e.2⟩)
            ∈ storeBatch ts flows protocols ports)
    ∧ (storeBatch ts flows protocols ports).length
        = 3 * flows.length + 2 * protocols.length + ports.length
    ∧ ∀ db, store_traffic_snapshot db ts flows protocols ports
        = applyBatch db (storeBatch ts flows protocols ports) := by
  refine ⟨?_, ?_, ?_, ?_, fun _ => rfl⟩
  · intro e he
    refine ⟨?_, ?_, ?_, ?_⟩
    · rw [storeBatch, List.countP_append, List.countP_append,
        countP_flow_section ts flows hf e he,
        no_flowV_in_proto_section, no_flowV_in_port_section]
    · simp only [storeBatch, List.mem_append, List.mem_flatMap]
      exact Or.inl (Or.inl ⟨e, he, by simp [flowWrites]⟩)
    · simp only [storeBatch, List.mem_append, List.mem_flatMap]
      exact Or.inl (Or.inl ⟨e, he, by simp [flowWrites]⟩)
    · simp only [storeBatch, List.mem_append, List.mem_flatMap]
      exact Or.inl (Or.inl ⟨e, he, by simp [flowWrites]⟩)
  · intro e he
    refine ⟨?_, ?_, ?_⟩
    · rw [storeBatch, List.countP_append, List.countP_append,
        countP_proto_section ts protocols hp e he,
        no_protoV_in_flow_section, no_protoV_in_port_section]
    · simp only [storeBatch, List.mem_append, List.mem_flatMap]
      exact Or.inl (Or.inr ⟨e, he, by simp [protoWrites]⟩)
    · simp only [storeBatch, List.mem_append, List.mem_flatMap]
      exact Or.inl (Or.inr ⟨e, he, by simp [protoWrites]⟩)
  · intro e he
    refine ⟨?_, ?_⟩
    · rw [storeBatch, List.countP_append, List.countP_append,
        countP_port_section ts ports hq e he,
        no_portV_in_flow_section, no_portV_in_proto_section]
    · simp only [storeBatch, List.mem_append, List.mem_map]
      exact Or.inr ⟨e, he, rfl⟩
  · rw [storeBatch, List.length_append, List.length_append,
      length_flatMap_const (flowWrites ts) 3 (fun _ => rfl) flows,
      length_flatMap_const (protoWrites ts) 2 (fun _ => rfl) protocols,
      List.length_map]

/-- Witness for `store_write_amplification`: one flow, one protocol and one
port record yield a batch of exactly six writes. -/
theorem store_write_amplification_witness :
    (storeBatch 100 [(⟨167772165, 443, 6, 0⟩, ⟨1, 100, 0, 0, 6, 100, 1⟩)]
        [(167772165, ⟨1, 0, 100, 0, 1, 0⟩)] [(443, ⟨443, 6, 100, 1, 1, 100⟩)]).length
      = 3 * 1 + 2 * 1 + 1 :=
  (store_write_amplification 100
    [(⟨167772165, 443, 6, 0⟩, ⟨1, 100, 0, 0, 6, 100, 1⟩)]
    [(167772165, ⟨1, 0, 100, 0, 1, 0⟩)] [(443, ⟨443, 6, 100, 1, 1, 100⟩)]
    (by decide) (by decide) (by decide)).2.2.2.1

end TC
